import Mathlib

/-!
CBasicKeyStore (src/keystore.h)

A shallow embedding of the in-memory key store declared in `src/keystore.h`.

* `std::set<K>` is a list of elements, kept strictly increasing by `StdSet.insert`;
  `std::map<K, V>` is a list of key/value pairs, kept strictly increasing in the key
  by `StdMap.assign`.  Iteration from `begin()` to `end()` is iteration over the list.
* The values of the primitive library (`CKeyID`, `CKey`, `libzcash::*`, ...) are opaque:
  each is a natural-number code tagged with the name of its C++ type; the strict weak
  order used by the containers is the order of the codes.
* A member function is a function of the store.  A `const` function that only returns a
  `bool` is a `Bool`-valued function.  A `const` function with an output parameter takes
  the prior value of the parameter and returns its final value together with the return
  value and the store after the call.  A function that may write the store returns its
  return value and the store after the call.
* keystore.h defines the `const` lookups and enumerations inline and only declares the
  other member functions; those are modelled from the specification and marked so.
* `LOCK(cs_...)` is scoped and released before the function returns; it has no effect on
  the value a member function computes.  The section on the guards embeds the inline
  member functions once more, as `Locked.*`, together with the events of acquiring and
  releasing a guard and of reading a data member, in program order.
-/

namespace KeyStore

/-! ## Containers -/

section Containers

variable {K V : Type} [LinearOrder K]

/-- A `std::set<K>`: the elements in iteration order. -/
abbrev StdSet (K : Type) := List K

/-- A `std::map<K, V>`: the key/value pairs in iteration order. -/
abbrev StdMap (K V : Type) := List (K × V)

/-- Well-formed set: strictly increasing, hence free of duplicates. -/
def StdSet.WF (l : StdSet K) : Prop := l.Sorted (· < ·)

/-- Well-formed map: strictly increasing keys, hence every key at most once. -/
def StdMap.WF (m : StdMap K V) : Prop := (m.map Prod.fst).Sorted (· < ·)

/-- The key set of a map, in iteration order. -/
def StdMap.keys (m : StdMap K V) : List K := m.map Prod.fst

/-- Embeds `std::set::insert(x)`: puts `x` at its place unless an equivalent element is there. -/
def StdSet.insert (x : K) : StdSet K → StdSet K
  | [] => [x]
  | y :: ys =>
    if x < y then x :: y :: ys
    else if y < x then y :: StdSet.insert x ys
    else y :: ys

/-- Embeds `std::set::clear()`. -/
def StdSet.clear (_l : StdSet K) : StdSet K := []

/-- Embeds `std::set::erase(x)`: removes every element equivalent to `x`. -/
def StdSet.erase (x : K) (l : StdSet K) : StdSet K :=
  l.filter (fun y => decide (¬ y = x))

/-- Embeds `std::set::count(x)`: the number of elements equivalent to `x`. -/
def StdSet.count (l : StdSet K) (x : K) : Nat :=
  List.count x l

/-- Embeds `std::set::empty()`. -/
def StdSet.empty (l : StdSet K) : Bool :=
  l.isEmpty

/-- Embeds `std::map::find(k)`: the first pair whose key is equivalent to `k`; `none` is `end()`. -/
def StdMap.find (m : StdMap K V) (k : K) : Option (K × V) :=
  List.find? (fun kv => decide (kv.1 = k)) m

/-- Embeds `std::map::count(k)`: the number of pairs whose key is equivalent to `k`. -/
def StdMap.count (m : StdMap K V) (k : K) : Nat :=
  List.countP (fun kv => decide (kv.1 = k)) m

/-- Embeds `m[k] = v`: replaces the value stored under `k`, or inserts the pair at its place. -/
def StdMap.assign (k : K) (v : V) : StdMap K V → StdMap K V
  | [] => [(k, v)]
  | (k', v') :: rest =>
    if k < k' then (k, v) :: (k', v') :: rest
    else if k' < k then (k', v') :: StdMap.assign k v rest
    else (k', v) :: rest

/-- Embeds `std::map::erase(k)`: removes every pair whose key is equivalent to `k`. -/
def StdMap.erase (k : K) (m : StdMap K V) : StdMap K V :=
  m.filter (fun kv => decide (¬ kv.1 = k))

end Containers

/-! ## Opaque values of the primitive library -/

/-- The C++ types whose values the store holds without looking inside. -/
inductive Prim where
  | keyID | key | pubKey | scriptID | script
  | sproutPaymentAddress | sproutSpendingKey | sproutViewingKey | noteDecryption
  | saplingSpendingKey | saplingFullViewingKey | saplingIncomingViewingKey
  | saplingPaymentAddress

/-- An opaque value of the C++ type `t`, given by a code. -/
structure Blob (t : Prim) where
  code : Nat

/-- The containers compare opaque values by their codes. -/
instance (t : Prim) : LinearOrder (Blob t) :=
  LinearOrder.lift' Blob.code (fun a b h => by cases a; cases b; simp_all)

abbrev CKeyID := Blob Prim.keyID
abbrev CKey := Blob Prim.key
abbrev CPubKey := Blob Prim.pubKey
abbrev CScriptID := Blob Prim.scriptID
abbrev CScript := Blob Prim.script
abbrev SproutPaymentAddress := Blob Prim.sproutPaymentAddress
abbrev SproutSpendingKey := Blob Prim.sproutSpendingKey
abbrev SproutViewingKey := Blob Prim.sproutViewingKey
abbrev ZCNoteDecryption := Blob Prim.noteDecryption
abbrev SaplingSpendingKey := Blob Prim.saplingSpendingKey
abbrev SaplingFullViewingKey := Blob Prim.saplingFullViewingKey
abbrev SaplingIncomingViewingKey := Blob Prim.saplingIncomingViewingKey
abbrev SaplingPaymentAddress := Blob Prim.saplingPaymentAddress

/-! ## The store -/

abbrev KeyMap := StdMap CKeyID CKey
abbrev ScriptMap := StdMap CScriptID CScript
abbrev WatchOnlySet := StdSet CScript
abbrev SproutSpendingKeyMap := StdMap SproutPaymentAddress SproutSpendingKey
abbrev SproutViewingKeyMap := StdMap SproutPaymentAddress SproutViewingKey
abbrev NoteDecryptorMap := StdMap SproutPaymentAddress ZCNoteDecryption
abbrev SaplingSpendingKeyMap := StdMap SaplingFullViewingKey SaplingSpendingKey
abbrev SaplingFullViewingKeyMap := StdMap SaplingIncomingViewingKey SaplingFullViewingKey
abbrev SaplingIncomingViewingKeyMap := StdMap SaplingPaymentAddress SaplingIncomingViewingKey

/-- The data members of `class CBasicKeyStore`. -/
structure CBasicKeyStore where
  mapKeys : KeyMap
  mapScripts : ScriptMap
  setWatchOnly : WatchOnlySet
  mapSproutSpendingKeys : SproutSpendingKeyMap
  mapSproutViewingKeys : SproutViewingKeyMap
  mapNoteDecryptors : NoteDecryptorMap
  mapSaplingSpendingKeys : SaplingSpendingKeyMap
  mapSaplingFullViewingKeys : SaplingFullViewingKeyMap
  mapSaplingIncomingViewingKeys : SaplingIncomingViewingKeyMap

/-- A freshly constructed store: every container is empty. -/
def CBasicKeyStore.init : CBasicKeyStore :=
  ⟨[], [], [], [], [], [], [], [], []⟩

/-- Every container of the store is well-formed. -/
def CBasicKeyStore.WF (s : CBasicKeyStore) : Prop :=
  StdMap.WF s.mapKeys ∧ StdMap.WF s.mapScripts ∧ StdSet.WF s.setWatchOnly ∧
  StdMap.WF s.mapSproutSpendingKeys ∧ StdMap.WF s.mapSproutViewingKeys ∧
  StdMap.WF s.mapNoteDecryptors ∧ StdMap.WF s.mapSaplingSpendingKeys ∧
  StdMap.WF s.mapSaplingFullViewingKeys ∧ StdMap.WF s.mapSaplingIncomingViewingKeys

/-- Outcome of a lookup `bool Get...(key, T& out) const`. -/
structure GetCall (α : Type) where
  ret : Bool
  out : α
  store : CBasicKeyStore

/-- Outcome of an enumeration `void Get...(std::set<T>& setAddress) const`. -/
structure EnumCall (α : Type) where
  out : StdSet α
  store : CBasicKeyStore

/-- Outcome of a member function `bool F(...)` that may write the store. -/
structure Call where
  ret : Bool
  store : CBasicKeyStore

/-- The loop `while (mi != m.end()) { setAddress.insert((*mi).first); mi++; }`. -/
def insertKeys {K V : Type} [LinearOrder K] : StdMap K V → StdSet K → StdSet K
  | [], setAddress => setAddress
  | mi :: rest, setAddress => insertKeys rest (StdSet.insert mi.1 setAddress)

/-- The outcome of `mi = m.find(k); if (mi != m.end()) { out = mi->second; return true; }
return false;`. -/
def findInto {K V : Type} [LinearOrder K] (s : CBasicKeyStore) (m : StdMap K V) (k : K)
    (out : V) : GetCall V :=
  match StdMap.find m k with
  | some mi => ⟨true, mi.2, s⟩
  | none => ⟨false, out, s⟩

namespace CBasicKeyStore

/-- Embeds `bool HaveKey(const CKeyID &address) const`. -/
def HaveKey (s : CBasicKeyStore) (address : CKeyID) : Bool :=
  decide (StdMap.count s.mapKeys address > 0)

/-- Embeds `void GetKeys(std::set<CKeyID> &setAddress) const`. -/
def GetKeys (s : CBasicKeyStore) (setAddress : StdSet CKeyID) : EnumCall CKeyID :=
  let setAddress := StdSet.clear setAddress
  let setAddress := insertKeys s.mapKeys setAddress
  ⟨setAddress, s⟩

/-- Embeds `bool GetKey(const CKeyID &address, CKey &keyOut) const`. -/
def GetKey (s : CBasicKeyStore) (address : CKeyID) (keyOut : CKey) : GetCall CKey :=
  findInto s s.mapKeys address keyOut

/-- Embeds `bool HaveSpendingKey(const libzcash::SproutPaymentAddress &address) const`. -/
def HaveSpendingKey (s : CBasicKeyStore) (address : SproutPaymentAddress) : Bool :=
  decide (StdMap.count s.mapSproutSpendingKeys address > 0)

/-- Embeds `bool GetSpendingKey(const SproutPaymentAddress &address, SproutSpendingKey &skOut) const`. -/
def GetSpendingKey (s : CBasicKeyStore) (address : SproutPaymentAddress)
    (skOut : SproutSpendingKey) : GetCall SproutSpendingKey :=
  findInto s s.mapSproutSpendingKeys address skOut

/-- Embeds `bool GetNoteDecryptor(const SproutPaymentAddress &address, ZCNoteDecryption &decOut) const`. -/
def GetNoteDecryptor (s : CBasicKeyStore) (address : SproutPaymentAddress)
    (decOut : ZCNoteDecryption) : GetCall ZCNoteDecryption :=
  findInto s s.mapNoteDecryptors address decOut

/-- Embeds `void GetPaymentAddresses(std::set<libzcash::SproutPaymentAddress> &setAddress) const`. -/
def GetPaymentAddresses (s : CBasicKeyStore) (setAddress : StdSet SproutPaymentAddress) :
    EnumCall SproutPaymentAddress :=
  let setAddress := StdSet.clear setAddress
  let setAddress := insertKeys s.mapSproutSpendingKeys setAddress
  let setAddress := insertKeys s.mapSproutViewingKeys setAddress
  ⟨setAddress, s⟩

/-- Embeds `bool HaveSaplingSpendingKey(const libzcash::SaplingFullViewingKey &fvk) const`. -/
def HaveSaplingSpendingKey (s : CBasicKeyStore) (fvk : SaplingFullViewingKey) : Bool :=
  decide (StdMap.count s.mapSaplingSpendingKeys fvk > 0)

/-- Embeds `bool GetSaplingSpendingKey(const SaplingFullViewingKey &fvk, SaplingSpendingKey &skOut) const`. -/
def GetSaplingSpendingKey (s : CBasicKeyStore) (fvk : SaplingFullViewingKey)
    (skOut : SaplingSpendingKey) : GetCall SaplingSpendingKey :=
  findInto s s.mapSaplingSpendingKeys fvk skOut

/-- Embeds `void GetSaplingPaymentAddresses(std::set<libzcash::SaplingPaymentAddress> &setAddress) const`. -/
def GetSaplingPaymentAddresses (s : CBasicKeyStore) (setAddress : StdSet SaplingPaymentAddress) :
    EnumCall SaplingPaymentAddress :=
  let setAddress := StdSet.clear setAddress
  let setAddress := insertKeys s.mapSaplingIncomingViewingKeys setAddress
  ⟨setAddress, s⟩

end CBasicKeyStore


/-! ## Member functions defined outside keystore.h -/

/-- Modelled from the spec: the external primitive library (spec section 6), which
keystore.h only includes.  Its derivation functions are total, deterministic and free of
side effects; nothing else is assumed of them.  `identity` is the key identity of a public
key, `viewingKeyAddress` the payment address a Sprout viewing key belongs to. -/
structure Primitives where
  identity : CPubKey → CKeyID
  derivePubKey : CKey → CPubKey
  hashScript : CScript → CScriptID
  deriveSproutAddressAndViewingKey : SproutSpendingKey → SproutPaymentAddress × SproutViewingKey
  viewingKeyAddress : SproutViewingKey → SproutPaymentAddress
  buildNoteDecryptor : SproutViewingKey → ZCNoteDecryption
  deriveFullViewingKey : SaplingSpendingKey → SaplingFullViewingKey
  deriveIncomingViewingKey : SaplingFullViewingKey → SaplingIncomingViewingKey

namespace CBasicKeyStore

variable (P : Primitives)

/-- Modelled from the spec: the body of `AddKeyPubKey`, which keystore.h only declares.
Spec 4.1: stores the secret key under the key identity derived from the public key and
always succeeds; spec 3: insertion of a duplicate key overwrites. -/
def AddKeyPubKey (s : CBasicKeyStore) (key : CKey) (pubkey : CPubKey) : Call :=
  ⟨true, { s with mapKeys := StdMap.assign (P.identity pubkey) key s.mapKeys }⟩

/-- Modelled from the spec: the body of `CKeyStore::AddKey`, which keystore.h only declares.
Spec 4.1: derives the public key via the primitive library and delegates to
`AddKeyPubKey`. -/
def AddKey (s : CBasicKeyStore) (key : CKey) : Call :=
  AddKeyPubKey P s key (P.derivePubKey key)

/-- Modelled from the spec: the body of `AddCScript`, which keystore.h only declares.
Spec 4.1: script-hash-indexed storage, the hash computed by the external routine. -/
def AddCScript (s : CBasicKeyStore) (redeemScript : CScript) : Call :=
  ⟨true, { s with mapScripts := StdMap.assign (P.hashScript redeemScript) redeemScript s.mapScripts }⟩

/-- Modelled from the spec: the body of `AddWatchOnly`, which keystore.h only declares.
Spec 4.1: set membership; the mutator always succeeds. -/
def AddWatchOnly (s : CBasicKeyStore) (dest : CScript) : Call :=
  ⟨true, { s with setWatchOnly := StdSet.insert dest s.setWatchOnly }⟩

/-- Modelled from the spec: the body of `RemoveWatchOnly`, which keystore.h only declares.
Spec 4.1: set membership; the mutator always succeeds. -/
def RemoveWatchOnly (s : CBasicKeyStore) (dest : CScript) : Call :=
  ⟨true, { s with setWatchOnly := StdSet.erase dest s.setWatchOnly }⟩

/-- Modelled from the spec: the body of `HaveWatchOnly(const CScript&)`, which keystore.h
only declares.  Spec 4.1: set membership. -/
def HaveWatchOnly (s : CBasicKeyStore) (dest : CScript) : Bool :=
  decide (StdSet.count s.setWatchOnly dest > 0)

/-- Modelled from the spec: the body of the overload `HaveWatchOnly()`, which keystore.h
only declares.  Spec 4.1: reports whether the set is non-empty. -/
def HaveWatchOnlyAny (s : CBasicKeyStore) : Bool :=
  !StdSet.empty s.setWatchOnly

/-- Modelled from the spec: the body of `AddSpendingKey`, which keystore.h only declares.
Spec 4.1: derives the address, the viewing key and the note decryptor and stores all
three; spec 3: the decryptor is recomputed whenever a spending or viewing key is added for
the address. -/
def AddSpendingKey (s : CBasicKeyStore) (sk : SproutSpendingKey) : Call :=
  let address := (P.deriveSproutAddressAndViewingKey sk).1
  let vk := (P.deriveSproutAddressAndViewingKey sk).2
  ⟨true, { s with
    mapSproutSpendingKeys := StdMap.assign address sk s.mapSproutSpendingKeys
    mapSproutViewingKeys := StdMap.assign address vk s.mapSproutViewingKeys
    mapNoteDecryptors := StdMap.assign address (P.buildNoteDecryptor vk) s.mapNoteDecryptors }⟩

/-- Modelled from the spec: the body of `AddSproutViewingKey`, which keystore.h only
declares.  Spec 3: a viewing key maps to its payment address, and the decryptor is
recomputed whenever a viewing key is added for the address. -/
def AddSproutViewingKey (s : CBasicKeyStore) (vk : SproutViewingKey) : Call :=
  let address := P.viewingKeyAddress vk
  ⟨true, { s with
    mapSproutViewingKeys := StdMap.assign address vk s.mapSproutViewingKeys
    mapNoteDecryptors := StdMap.assign address (P.buildNoteDecryptor vk) s.mapNoteDecryptors }⟩

/-- Modelled from the spec: the body of `RemoveSproutViewingKey`, which keystore.h only
declares.  Spec 4.2: a removal in one map never implies removal elsewhere. -/
def RemoveSproutViewingKey (s : CBasicKeyStore) (vk : SproutViewingKey) : Call :=
  ⟨true, { s with
    mapSproutViewingKeys := StdMap.erase (P.viewingKeyAddress vk) s.mapSproutViewingKeys }⟩

/-- Modelled from the spec: the body of `AddSaplingFullViewingKey`, which keystore.h only
declares.  Spec 4.1: derives the incoming viewing key, stores the full viewing key under
it and, if an address is supplied, the incoming viewing key under the address. -/
def AddSaplingFullViewingKey (s : CBasicKeyStore) (fvk : SaplingFullViewingKey)
    (defaultAddr : Option SaplingPaymentAddress) : Call :=
  let ivk := P.deriveIncomingViewingKey fvk
  let s1 := { s with mapSaplingFullViewingKeys := StdMap.assign ivk fvk s.mapSaplingFullViewingKeys }
  match defaultAddr with
  | some addr =>
    ⟨true, { s1 with
      mapSaplingIncomingViewingKeys := StdMap.assign addr ivk s1.mapSaplingIncomingViewingKeys }⟩
  | none => ⟨true, s1⟩

/-- Modelled from the spec: the body of `AddSaplingSpendingKey`, which keystore.h only
declares.  Spec 4.1: derives the full viewing key, stores the spending key under it and
performs the registration of `AddSaplingFullViewingKey`, with the address if one is
supplied; spec 3: a spending key is never stored without its derived full viewing key and,
if supplied, the address linkage. -/
def AddSaplingSpendingKey (s : CBasicKeyStore) (sk : SaplingSpendingKey)
    (defaultAddr : Option SaplingPaymentAddress) : Call :=
  let fvk := P.deriveFullViewingKey sk
  let s1 := { s with mapSaplingSpendingKeys := StdMap.assign fvk sk s.mapSaplingSpendingKeys }
  ⟨true, (AddSaplingFullViewingKey P s1 fvk defaultAddr).store⟩

/-- Modelled from the spec: the body of `HaveSaplingFullViewingKey`, which keystore.h only
declares.  Spec 4.1: a lookup keyed by the incoming viewing key. -/
def HaveSaplingFullViewingKey (s : CBasicKeyStore) (ivk : SaplingIncomingViewingKey) : Bool :=
  decide (StdMap.count s.mapSaplingFullViewingKeys ivk > 0)

/-- Modelled from the spec: the body of `GetSaplingFullViewingKey`, which keystore.h only
declares.  Spec 4.1: a lookup keyed by the incoming viewing key that returns the complete
value or reports absence. -/
def GetSaplingFullViewingKey (s : CBasicKeyStore) (ivk : SaplingIncomingViewingKey)
    (fvkOut : SaplingFullViewingKey) : GetCall SaplingFullViewingKey :=
  findInto s s.mapSaplingFullViewingKeys ivk fvkOut

/-- Modelled from the spec: the body of `HaveSaplingIncomingViewingKey`, which keystore.h
only declares.  Spec 4.1: a lookup keyed by the address. -/
def HaveSaplingIncomingViewingKey (s : CBasicKeyStore) (addr : SaplingPaymentAddress) : Bool :=
  decide (StdMap.count s.mapSaplingIncomingViewingKeys addr > 0)

/-- Modelled from the spec: the body of `GetSaplingIncomingViewingKey`, which keystore.h
only declares.  Spec 4.1: a lookup keyed by the address that returns the complete value or
reports absence. -/
def GetSaplingIncomingViewingKey (s : CBasicKeyStore) (addr : SaplingPaymentAddress)
    (ivkOut : SaplingIncomingViewingKey) : GetCall SaplingIncomingViewingKey :=
  findInto s s.mapSaplingIncomingViewingKeys addr ivkOut

end CBasicKeyStore

/-- One call of an `Add...` or `Remove...` member function, with its arguments. -/
inductive Op where
  | addKeyPubKey (key : CKey) (pubkey : CPubKey)
  | addKey (key : CKey)
  | addCScript (redeemScript : CScript)
  | addWatchOnly (dest : CScript)
  | removeWatchOnly (dest : CScript)
  | addSpendingKey (sk : SproutSpendingKey)
  | addSproutViewingKey (vk : SproutViewingKey)
  | removeSproutViewingKey (vk : SproutViewingKey)
  | addSaplingSpendingKey (sk : SaplingSpendingKey) (defaultAddr : Option SaplingPaymentAddress)
  | addSaplingFullViewingKey (fvk : SaplingFullViewingKey)
      (defaultAddr : Option SaplingPaymentAddress)

/-- The store after one call. -/
def Op.apply (P : Primitives) (s : CBasicKeyStore) : Op → CBasicKeyStore
  | .addKeyPubKey key pubkey => (s.AddKeyPubKey P key pubkey).store
  | .addKey key => (s.AddKey P key).store
  | .addCScript redeemScript => (s.AddCScript P redeemScript).store
  | .addWatchOnly dest => (s.AddWatchOnly dest).store
  | .removeWatchOnly dest => (s.RemoveWatchOnly dest).store
  | .addSpendingKey sk => (s.AddSpendingKey P sk).store
  | .addSproutViewingKey vk => (s.AddSproutViewingKey P vk).store
  | .removeSproutViewingKey vk => (s.RemoveSproutViewingKey P vk).store
  | .addSaplingSpendingKey sk defaultAddr => (s.AddSaplingSpendingKey P sk defaultAddr).store
  | .addSaplingFullViewingKey fvk defaultAddr =>
    (s.AddSaplingFullViewingKey P fvk defaultAddr).store

/-- The store after a sequence of calls, the first call first. -/
def runOps (P : Primitives) (s : CBasicKeyStore) (ops : List Op) : CBasicKeyStore :=
  ops.foldl (Op.apply P) s

/-- A primitive library for evaluating the store on concrete inputs: every derivation
keeps the code of its argument, except that a Sapling full viewing key is the spending
key's code plus 100 and the incoming viewing key the full viewing key's code plus 1000. -/
def samplePrimitives : Primitives where
  identity pk := ⟨pk.code⟩
  derivePubKey k := ⟨k.code⟩
  hashScript sc := ⟨sc.code⟩
  deriveSproutAddressAndViewingKey sk := (⟨sk.code⟩, ⟨sk.code⟩)
  viewingKeyAddress vk := ⟨vk.code⟩
  buildNoteDecryptor vk := ⟨vk.code⟩
  deriveFullViewingKey sk := ⟨sk.code + 100⟩
  deriveIncomingViewingKey fvk := ⟨fvk.code + 1000⟩

/-- What a lookup `findInto s m k prior` leaves behind: the store is `s`; the return value
is true exactly when `k` is a key of `m`; on true the output is a value stored under `k`
(the only one when the map is well-formed); on false the output is the prior value. -/
def LookupOutcome {K V : Type} [LinearOrder K] (s : CBasicKeyStore) (m : StdMap K V) (k : K)
    (prior : V) (r : GetCall V) : Prop :=
  r.store = s ∧ (r.ret = true ↔ k ∈ StdMap.keys m) ∧
  ((r.ret = true ∧ (k, r.out) ∈ m ∧ (StdMap.WF m → ∀ v, (k, v) ∈ m → v = r.out)) ∨
    (r.ret = false ∧ r.out = prior))

/-- A well-formed store for evaluating the member functions on concrete inputs. -/
def sampleStore : CBasicKeyStore where
  mapKeys := [(⟨1⟩, ⟨11⟩), (⟨2⟩, ⟨12⟩)]
  mapScripts := [(⟨5⟩, ⟨5⟩)]
  setWatchOnly := [⟨7⟩, ⟨8⟩]
  mapSproutSpendingKeys := [(⟨1⟩, ⟨21⟩), (⟨2⟩, ⟨22⟩)]
  mapSproutViewingKeys := [(⟨2⟩, ⟨32⟩), (⟨3⟩, ⟨33⟩)]
  mapNoteDecryptors := [(⟨1⟩, ⟨41⟩), (⟨2⟩, ⟨42⟩), (⟨3⟩, ⟨43⟩)]
  mapSaplingSpendingKeys := [(⟨101⟩, ⟨1⟩)]
  mapSaplingFullViewingKeys := [(⟨1101⟩, ⟨101⟩)]
  mapSaplingIncomingViewingKeys := []

/-- The Sapling invariant of spec section 3: every stored spending key sits under the full
viewing key derived from it, and that key's incoming viewing key is a key of the full
viewing-key map. -/
def SaplingInv (P : Primitives) (s : CBasicKeyStore) : Prop :=
  ∀ fvk sk, (fvk, sk) ∈ s.mapSaplingSpendingKeys →
    P.deriveFullViewingKey sk = fvk ∧
    P.deriveIncomingViewingKey fvk ∈ StdMap.keys s.mapSaplingFullViewingKeys

/-- A sequence of calls for evaluating reachable stores on concrete inputs. -/
def sampleOps : List Op :=
  [.addSaplingFullViewingKey ⟨500⟩ (some ⟨9⟩), .addSaplingSpendingKey ⟨1⟩ none,
    .addSproutViewingKey ⟨3⟩, .removeSproutViewingKey ⟨3⟩, .addKey ⟨4⟩,
    .addSaplingSpendingKey ⟨2⟩ (some ⟨8⟩), .addWatchOnly ⟨6⟩, .removeWatchOnly ⟨6⟩,
    .addSpendingKey ⟨5⟩, .addCScript ⟨7⟩, .addKeyPubKey ⟨4⟩ ⟨3⟩]

/-- The store of the Sapling scenario after its first step: the spending key `sk1` is
added to the empty store with no default address. -/
def scenarioStore1 (P : Primitives) (sk1 : SaplingSpendingKey) : CBasicKeyStore :=
  (CBasicKeyStore.init.AddSaplingSpendingKey P sk1 none).store

/-- The store of the Sapling scenario after its second step: the spending key `sk2` is
then added with the default address `addr2`. -/
def scenarioStore2 (P : Primitives) (sk1 sk2 : SaplingSpendingKey)
    (addr2 : SaplingPaymentAddress) : CBasicKeyStore :=
  ((scenarioStore1 P sk1).AddSaplingSpendingKey P sk2 (some addr2)).store

/-- The store after `AddKeyPubKey(k1, pk1); AddKeyPubKey(k2, pk2)`. -/
def addTwoKeys (P : Primitives) (s : CBasicKeyStore) (k1 : CKey) (pk1 : CPubKey) (k2 : CKey)
    (pk2 : CPubKey) : CBasicKeyStore :=
  ((s.AddKeyPubKey P k1 pk1).store.AddKeyPubKey P k2 pk2).store

/-- The store after `AddWatchOnly(dest); AddWatchOnly(dest)`. -/
def watchTwice (s : CBasicKeyStore) (dest : CScript) : CBasicKeyStore :=
  ((s.AddWatchOnly dest).store.AddWatchOnly dest).store

/-- The store reached by `sampleOps`, with its Sapling spending keys and full viewing keys
taken away; the address map is kept. -/
def sampleViewOnly : CBasicKeyStore :=
  { runOps samplePrimitives CBasicKeyStore.init sampleOps with
    mapSaplingSpendingKeys := []
    mapSaplingFullViewingKeys := [] }

/-! ## The guards -/

/-- The two guards of `CKeyStore` (keystore.h 24-25). -/
inductive Guard where
  | cs_KeyStore
  | cs_SpendingKeyStore
  deriving DecidableEq

/-- The data members of `CBasicKeyStore` (keystore.h 112-121). -/
inductive Member where
  | mapKeys | mapScripts | setWatchOnly
  | mapSproutSpendingKeys | mapSproutViewingKeys | mapNoteDecryptors
  | mapSaplingSpendingKeys | mapSaplingFullViewingKeys | mapSaplingIncomingViewingKeys
  deriving DecidableEq

/-- Modelled from the spec: the guard that protects a data member, which keystore.h does
not record.  Spec 4.3: one guard protects the transparent key pool and the script and
watch-only sets, the other both shielded pools and the note-decryptor cache. -/
def Member.guard : Member → Guard
  | .mapKeys => .cs_KeyStore
  | .mapScripts => .cs_KeyStore
  | .setWatchOnly => .cs_KeyStore
  | .mapSproutSpendingKeys => .cs_SpendingKeyStore
  | .mapSproutViewingKeys => .cs_SpendingKeyStore
  | .mapNoteDecryptors => .cs_SpendingKeyStore
  | .mapSaplingSpendingKeys => .cs_SpendingKeyStore
  | .mapSaplingFullViewingKeys => .cs_SpendingKeyStore
  | .mapSaplingIncomingViewingKeys => .cs_SpendingKeyStore

/-- What a member function does to the guards and the data members, in program order. -/
inductive Event where
  | acquire (g : Guard)
  | release (g : Guard)
  | read (m : Member)
  deriving DecidableEq

/-- A value computed by a member function together with the events of computing it. -/
structure Traced (α : Type) where
  val : α
  trace : List Event

/-- Sequencing of statements: the events of the first, then those of the second. -/
instance : Monad Traced where
  pure a := ⟨a, []⟩
  bind x f := ⟨(f x.val).val, x.trace ++ (f x.val).trace⟩

/-- Embeds `LOCK(cs)`: the guard is acquired here. -/
def LOCK (cs : Guard) : Traced Unit := ⟨(), [.acquire cs]⟩

/-- The end of the scope of a `LOCK(cs)`, also when left by `return`: the guard is
released. -/
def UNLOCK (cs : Guard) : Traced Unit := ⟨(), [.release cs]⟩

/-- An expression that reads the data member `m` and has the value `v`. -/
def access {α : Type} (m : Member) (v : α) : Traced α := ⟨v, [.read m]⟩

/-- One event under the discipline of the guard `g`: only `g` is acquired, and only while
not held; only `g` is released, and only while held; a member is read only while `g` is
held and only if `g` protects it.  The result says whether `g` is held afterwards. -/
def Event.step (g : Guard) (held : Bool) : Event → Option Bool
  | .acquire g' => if g' = g ∧ held = false then some true else none
  | .release g' => if g' = g ∧ held = true then some false else none
  | .read m => if m.guard = g ∧ held = true then some true else none

/-- A trace under the discipline of the guard `g`, from the state `held`. -/
def runTrace (g : Guard) : Bool → List Event → Option Bool
  | held, [] => some held
  | held, e :: es =>
    match Event.step g held e with
    | some held' => runTrace g held' es
    | none => none

/-- The traced computation `x` has the value `v`, and its trace keeps the discipline of
the guard `g` from start to end, ending with `g` released: every guard it acquires is `g`,
and every data member it reads is protected by `g`. -/
def GuardedBy {α : Type} (g : Guard) (x : Traced α) (v : α) : Prop :=
  x.val = v ∧ runTrace g false x.trace = some false ∧
  (∀ g', Event.acquire g' ∈ x.trace → g' = g) ∧
  (∀ m, Event.read m ∈ x.trace → m.guard = g)

/-- The loop `while (mi != m.end()) { setAddress.insert((*mi).first); mi++; }` over the
data member `member`, with the reads of the member it makes. -/
def Locked.insertKeys {K V : Type} [LinearOrder K] (member : Member) :
    StdMap K V → StdSet K → Traced (StdSet K)
  | [], setAddress => do
    access member ()
    pure setAddress
  | mi :: rest, setAddress => do
    access member ()
    let first ← access member mi.1
    let setAddress := StdSet.insert first setAddress
    access member ()
    Locked.insertKeys member rest setAddress

/-- The block `{ LOCK(cs); mi = m.find(k); if (mi != m.end()) { out = mi->second; return
true; } } return false;` over the data member `member`. -/
def Locked.findInto {K V : Type} [LinearOrder K] (cs : Guard) (member : Member)
    (s : CBasicKeyStore) (m : StdMap K V) (k : K) (out : V) : Traced (GetCall V) := do
  LOCK cs
  let mi ← access member (StdMap.find m k)
  access member ()
  match mi with
  | some kv =>
    let second ← access member kv.2
    UNLOCK cs
    pure ⟨true, second, s⟩
  | none =>
    UNLOCK cs
    pure ⟨false, out, s⟩

/-- The block `{ LOCK(cs); result = (m.count(k) > 0); } return result;` over the data
member `member`. -/
def Locked.countPositive {K V : Type} [LinearOrder K] (cs : Guard) (member : Member)
    (m : StdMap K V) (k : K) : Traced Bool := do
  LOCK cs
  let result ← access member (decide (StdMap.count m k > 0))
  UNLOCK cs
  pure result

namespace CBasicKeyStore.Locked

/-- Embeds `HaveKey` with its guard (keystore.h 125-133). -/
def HaveKey (s : CBasicKeyStore) (address : CKeyID) : Traced Bool :=
  Locked.countPositive .cs_KeyStore .mapKeys s.mapKeys address

/-- Embeds `GetKeys` with its guard (keystore.h 134-146). -/
def GetKeys (s : CBasicKeyStore) (setAddress : StdSet CKeyID) : Traced (EnumCall CKeyID) := do
  let setAddress := StdSet.clear setAddress
  LOCK .cs_KeyStore
  access .mapKeys ()
  let setAddress ← Locked.insertKeys .mapKeys s.mapKeys setAddress
  UNLOCK .cs_KeyStore
  pure ⟨setAddress, s⟩

/-- Embeds `GetKey` with its guard (keystore.h 147-159). -/
def GetKey (s : CBasicKeyStore) (address : CKeyID) (keyOut : CKey) : Traced (GetCall CKey) :=
  Locked.findInto .cs_KeyStore .mapKeys s s.mapKeys address keyOut

/-- Embeds `HaveSpendingKey` with its guard (keystore.h 170-178). -/
def HaveSpendingKey (s : CBasicKeyStore) (address : SproutPaymentAddress) : Traced Bool :=
  Locked.countPositive .cs_SpendingKeyStore .mapSproutSpendingKeys s.mapSproutSpendingKeys address

/-- Embeds `GetSpendingKey` with its guard (keystore.h 179-191). -/
def GetSpendingKey (s : CBasicKeyStore) (address : SproutPaymentAddress)
    (skOut : SproutSpendingKey) : Traced (GetCall SproutSpendingKey) :=
  Locked.findInto .cs_SpendingKeyStore .mapSproutSpendingKeys s s.mapSproutSpendingKeys
    address skOut

/-- Embeds `GetNoteDecryptor` with its guard (keystore.h 192-204). -/
def GetNoteDecryptor (s : CBasicKeyStore) (address : SproutPaymentAddress)
    (decOut : ZCNoteDecryption) : Traced (GetCall ZCNoteDecryption) :=
  Locked.findInto .cs_SpendingKeyStore .mapNoteDecryptors s s.mapNoteDecryptors address decOut

/-- Embeds `GetPaymentAddresses` with its guard (keystore.h 205-223). -/
def GetPaymentAddresses (s : CBasicKeyStore) (setAddress : StdSet SproutPaymentAddress) :
    Traced (EnumCall SproutPaymentAddress) := do
  let setAddress := StdSet.clear setAddress
  LOCK .cs_SpendingKeyStore
  access .mapSproutSpendingKeys ()
  let setAddress ← Locked.insertKeys .mapSproutSpendingKeys s.mapSproutSpendingKeys setAddress
  access .mapSproutViewingKeys ()
  let setAddress ← Locked.insertKeys .mapSproutViewingKeys s.mapSproutViewingKeys setAddress
  UNLOCK .cs_SpendingKeyStore
  pure ⟨setAddress, s⟩

/-- Embeds `HaveSaplingSpendingKey` with its guard (keystore.h 229-237). -/
def HaveSaplingSpendingKey (s : CBasicKeyStore) (fvk : SaplingFullViewingKey) : Traced Bool :=
  Locked.countPositive .cs_SpendingKeyStore .mapSaplingSpendingKeys s.mapSaplingSpendingKeys fvk

/-- Embeds `GetSaplingSpendingKey` with its guard (keystore.h 238-251). -/
def GetSaplingSpendingKey (s : CBasicKeyStore) (fvk : SaplingFullViewingKey)
    (skOut : SaplingSpendingKey) : Traced (GetCall SaplingSpendingKey) :=
  Locked.findInto .cs_SpendingKeyStore .mapSaplingSpendingKeys s s.mapSaplingSpendingKeys
    fvk skOut

/-- Embeds `GetSaplingPaymentAddresses` with its guard (keystore.h 265-277). -/
def GetSaplingPaymentAddresses (s : CBasicKeyStore)
    (setAddress : StdSet SaplingPaymentAddress) : Traced (EnumCall SaplingPaymentAddress) := do
  let setAddress := StdSet.clear setAddress
  LOCK .cs_SpendingKeyStore
  access .mapSaplingIncomingViewingKeys ()
  let setAddress ←
    Locked.insertKeys .mapSaplingIncomingViewingKeys s.mapSaplingIncomingViewingKeys setAddress
  UNLOCK .cs_SpendingKeyStore
  pure ⟨setAddress, s⟩

end CBasicKeyStore.Locked

/-! ## Facts about the containers -/

section ContainerFacts

variable {K V : Type} [LinearOrder K]

theorem setInsert_mem (a x : K) (l : StdSet K) :
    a ∈ StdSet.insert x l ↔ a = x ∨ a ∈ l := by
  induction l with
  | nil => simp [StdSet.insert]
  | cons y ys ih =>
    simp only [StdSet.insert]
    split_ifs with h1 h2
    · simp
    · simp only [List.mem_cons, ih]
      tauto
    · have hxy : x = y := le_antisymm (not_lt.mp h2) (not_lt.mp h1)
      subst hxy
      simp

theorem setInsert_WF (x : K) (l : StdSet K) (h : StdSet.WF l) :
    StdSet.WF (StdSet.insert x l) := by
  induction l with
  | nil => simp [StdSet.insert, StdSet.WF]
  | cons y ys ih =>
    unfold StdSet.WF at h ih ⊢
    rw [List.sorted_cons] at h
    simp only [StdSet.insert]
    split_ifs with h1 h2
    · refine List.sorted_cons.mpr ⟨?_, List.sorted_cons.mpr h⟩
      intro b hb
      rcases List.mem_cons.mp hb with hb | hb
      · rw [hb]
        exact h1
      · exact lt_trans h1 (h.1 b hb)
    · refine List.sorted_cons.mpr ⟨?_, ih h.2⟩
      intro b hb
      rcases (setInsert_mem b x ys).mp hb with hb | hb
      · rw [hb]
        exact h2
      · exact h.1 b hb
    · exact List.sorted_cons.mpr h

theorem setInsert_idem (x : K) (l : StdSet K) :
    StdSet.insert x (StdSet.insert x l) = StdSet.insert x l := by
  induction l with
  | nil => simp [StdSet.insert]
  | cons y ys ih =>
    simp only [StdSet.insert]
    split_ifs with h1 h2
    · simp [StdSet.insert]
    · simp [StdSet.insert, h1, h2, ih]
    · simp [StdSet.insert, h1, h2]

theorem setWF_count (a : K) (l : StdSet K) (h : StdSet.WF l) :
    List.count a l = if a ∈ l then 1 else 0 := by
  have hnd : l.Nodup := List.Sorted.nodup h
  split_ifs with ha
  · exact List.count_eq_one_of_mem hnd ha
  · exact List.count_eq_zero_of_not_mem ha

theorem insertKeys_mem (a : K) (m : StdMap K V) (acc : StdSet K) :
    a ∈ insertKeys m acc ↔ a ∈ StdMap.keys m ∨ a ∈ acc := by
  induction m generalizing acc with
  | nil => simp [insertKeys, StdMap.keys]
  | cons kv rest ih =>
    simp only [insertKeys, ih, setInsert_mem, StdMap.keys, List.map_cons, List.mem_cons]
    tauto

theorem insertKeys_WF (m : StdMap K V) (acc : StdSet K) (h : StdSet.WF acc) :
    StdSet.WF (insertKeys m acc) := by
  induction m generalizing acc with
  | nil => simpa [insertKeys] using h
  | cons kv rest ih =>
    simp only [insertKeys]
    exact ih _ (setInsert_WF kv.1 acc h)

theorem setInsert_append (x : K) (l : StdSet K) (h : ∀ a ∈ l, a < x) :
    StdSet.insert x l = l ++ [x] := by
  induction l with
  | nil => simp [StdSet.insert]
  | cons y ys ih =>
    have hy : y < x := h y (List.mem_cons_self y ys)
    simp only [StdSet.insert, not_lt_of_lt hy, hy, if_true, if_false, List.cons_append]
    rw [ih (fun a ha => h a (List.mem_cons_of_mem y ha))]

theorem insertKeys_sorted (m : StdMap K V) (acc : StdSet K) (hm : StdMap.WF m)
    (h : ∀ a ∈ acc, ∀ k ∈ StdMap.keys m, a < k) :
    insertKeys m acc = acc ++ StdMap.keys m := by
  induction m generalizing acc with
  | nil => simp [insertKeys, StdMap.keys]
  | cons kv rest ih =>
    unfold StdMap.WF at hm ih
    rw [List.map_cons, List.sorted_cons] at hm
    simp only [insertKeys, StdMap.keys, List.map_cons]
    have hins : StdSet.insert kv.1 acc = acc ++ [kv.1] :=
      setInsert_append kv.1 acc (fun a ha => h a ha kv.1 (by simp [StdMap.keys]))
    rw [hins, ih (acc ++ [kv.1]) hm.2]
    · simp [StdMap.keys]
    · intro a ha k hk
      rcases List.mem_append.mp ha with ha | ha
      · exact h a ha k (by simp only [StdMap.keys, List.map_cons]; exact List.mem_cons_of_mem _ hk)
      · rw [List.mem_singleton.mp ha]
        exact hm.1 k hk

theorem mapFind_some (m : StdMap K V) (k : K) (kv : K × V) (h : StdMap.find m k = some kv) :
    kv ∈ m ∧ kv.1 = k := by
  unfold StdMap.find at h
  refine ⟨List.mem_of_find?_eq_some h, ?_⟩
  simpa using List.find?_some h

theorem mapFind_none (m : StdMap K V) (k : K) :
    StdMap.find m k = none ↔ k ∉ StdMap.keys m := by
  unfold StdMap.find StdMap.keys
  rw [List.find?_eq_none]
  simp only [decide_eq_true_eq, List.mem_map, not_exists, not_and]

theorem mapCount_pos (m : StdMap K V) (k : K) :
    StdMap.count m k > 0 ↔ k ∈ StdMap.keys m := by
  unfold StdMap.count StdMap.keys
  rw [gt_iff_lt, List.countP_pos_iff]
  simp only [decide_eq_true_eq, List.mem_map]

theorem mapWF_unique (m : StdMap K V) (h : StdMap.WF m) (k : K) (v w : V)
    (hv : (k, v) ∈ m) (hw : (k, w) ∈ m) : v = w := by
  induction m with
  | nil => simp at hv
  | cons kv rest ih =>
    unfold StdMap.WF at h ih
    rw [List.map_cons, List.sorted_cons] at h
    have hfresh : ∀ u, (k, u) ∈ rest → kv.1 < k := fun u hu =>
      h.1 k (List.mem_map.mpr ⟨(k, u), hu, rfl⟩)
    rcases List.mem_cons.mp hv with hv | hv <;> rcases List.mem_cons.mp hw with hw | hw
    · rw [← hv] at hw
      exact (Prod.mk.inj hw).2.symm
    · have hlt := hfresh w hw
      rw [← hv] at hlt
      exact absurd hlt (lt_irrefl k)
    · have hlt := hfresh v hv
      rw [← hw] at hlt
      exact absurd hlt (lt_irrefl k)
    · exact ih h.2 hv hw

theorem mapAssign_find_self (k : K) (v : V) (m : StdMap K V) :
    StdMap.find (StdMap.assign k v m) k = some (k, v) := by
  induction m with
  | nil => simp [StdMap.assign, StdMap.find]
  | cons kv rest ih =>
    obtain ⟨j, w⟩ := kv
    simp only [StdMap.assign]
    split_ifs with h1 h2
    · simp [StdMap.find]
    · unfold StdMap.find at ih ⊢
      rw [List.find?_cons_of_neg]
      · exact ih
      · simpa using ne_of_lt h2
    · have hjk : k = j := le_antisymm (not_lt.mp h2) (not_lt.mp h1)
      subst hjk
      simp [StdMap.find]

theorem mapAssign_find_other (k j : K) (v : V) (m : StdMap K V) (hne : j ≠ k) :
    StdMap.find (StdMap.assign k v m) j = StdMap.find m j := by
  induction m with
  | nil => simp [StdMap.assign, StdMap.find, Ne.symm hne]
  | cons kv rest ih =>
    obtain ⟨i, w⟩ := kv
    simp only [StdMap.assign]
    split_ifs with h1 h2
    · unfold StdMap.find
      rw [List.find?_cons_of_neg]
      simpa using Ne.symm hne
    · unfold StdMap.find at ih ⊢
      by_cases hij : i = j
      · simp [hij]
      · rw [List.find?_cons_of_neg _ (by simpa using hij),
          List.find?_cons_of_neg _ (by simpa using hij)]
        exact ih
    · have hik : k = i := le_antisymm (not_lt.mp h2) (not_lt.mp h1)
      subst hik
      unfold StdMap.find
      rw [List.find?_cons_of_neg _ (by simpa using Ne.symm hne),
        List.find?_cons_of_neg _ (by simpa using Ne.symm hne)]

theorem mapAssign_keys_mem (a k : K) (v : V) (m : StdMap K V) :
    a ∈ StdMap.keys (StdMap.assign k v m) ↔ a = k ∨ a ∈ StdMap.keys m := by
  induction m with
  | nil => simp [StdMap.assign, StdMap.keys]
  | cons kv rest ih =>
    obtain ⟨j, w⟩ := kv
    unfold StdMap.keys at ih ⊢
    simp only [StdMap.assign]
    split_ifs with h1 h2
    · simp
    · simp only [List.map_cons, List.mem_cons, ih]
      tauto
    · have hjk : k = j := le_antisymm (not_lt.mp h2) (not_lt.mp h1)
      subst hjk
      simp

theorem mapAssign_WF (k : K) (v : V) (m : StdMap K V) (h : StdMap.WF m) :
    StdMap.WF (StdMap.assign k v m) := by
  induction m with
  | nil => simp [StdMap.assign, StdMap.WF]
  | cons kv rest ih =>
    obtain ⟨j, w⟩ := kv
    unfold StdMap.WF at h ih ⊢
    rw [List.map_cons, List.sorted_cons] at h
    simp only [StdMap.assign]
    split_ifs with h1 h2
    · refine List.sorted_cons.mpr ⟨?_, List.sorted_cons.mpr h⟩
      intro b hb
      rcases List.mem_cons.mp hb with hb | hb
      · rw [hb]
        exact h1
      · exact lt_trans h1 (h.1 b hb)
    · refine List.sorted_cons.mpr ⟨?_, ih h.2⟩
      intro b hb
      rcases (mapAssign_keys_mem b k v rest).mp hb with hb | hb
      · rw [hb]
        exact h2
      · exact h.1 b hb
    · exact List.sorted_cons.mpr h

theorem mapErase_keys_mem (a k : K) (m : StdMap K V) :
    a ∈ StdMap.keys (StdMap.erase k m) ↔ a ≠ k ∧ a ∈ StdMap.keys m := by
  unfold StdMap.keys StdMap.erase
  simp only [List.mem_map, List.mem_filter, decide_eq_true_eq]
  constructor
  · rintro ⟨kv, ⟨hm, hne⟩, rfl⟩
    exact ⟨hne, kv, hm, rfl⟩
  · rintro ⟨hne, kv, hm, rfl⟩
    exact ⟨kv, ⟨hm, hne⟩, rfl⟩

theorem mapErase_WF (k : K) (m : StdMap K V) (h : StdMap.WF m) :
    StdMap.WF (StdMap.erase k m) := by
  unfold StdMap.WF StdMap.erase at *
  exact List.Pairwise.sublist (List.Sublist.map Prod.fst (List.filter_sublist m)) h

theorem setErase_mem (a x : K) (l : StdSet K) :
    a ∈ StdSet.erase x l ↔ a ≠ x ∧ a ∈ l := by
  unfold StdSet.erase
  simp only [List.mem_filter, decide_eq_true_eq]
  tauto

theorem setErase_WF (x : K) (l : StdSet K) (h : StdSet.WF l) : StdSet.WF (StdSet.erase x l) := by
  unfold StdSet.WF StdSet.erase at *
  exact List.Pairwise.sublist (List.filter_sublist l) h

theorem findInto_outcome (s : CBasicKeyStore) (m : StdMap K V) (k : K) (prior : V) :
    LookupOutcome s m k prior (findInto s m k prior) := by
  unfold LookupOutcome findInto
  cases hf : StdMap.find m k with
  | none =>
    have hk := (mapFind_none m k).mp hf
    simp [hk]
  | some kv =>
    obtain ⟨hmem, hkey⟩ := mapFind_some m k kv hf
    have hpair : (k, kv.2) ∈ m := by
      rw [← hkey]
      exact hmem
    have hkeys : k ∈ StdMap.keys m := List.mem_map.mpr ⟨(k, kv.2), hpair, rfl⟩
    refine ⟨rfl, ?_, Or.inl ⟨rfl, hpair, ?_⟩⟩
    · simp [hkeys]
    · intro hwf v hv
      exact mapWF_unique m hwf k v kv.2 hv hpair

theorem enum_count (a : K) (out : StdSet K) (p : Prop) [Decidable p] (hwf : StdSet.WF out)
    (hmem : a ∈ out ↔ p) : List.count a out = if p then 1 else 0 := by
  rw [setWF_count a out hwf]
  by_cases hp : p
  · simp [hp, hmem.mpr hp]
  · simp [hp, mt hmem.mp hp]

theorem findInto_assign_self (s : CBasicKeyStore) (k : K) (v prior : V) (m : StdMap K V) :
    findInto s (StdMap.assign k v m) k prior = ⟨true, v, s⟩ := by
  unfold findInto
  rw [mapAssign_find_self]

theorem findInto_frame (s s' : CBasicKeyStore) (m : StdMap K V) (k : K) (prior : V) :
    (findInto s m k prior).ret = (findInto s' m k prior).ret ∧
    (findInto s m k prior).out = (findInto s' m k prior).out := by
  unfold findInto
  cases StdMap.find m k <;> exact ⟨rfl, rfl⟩

theorem count_assign_self (k : K) (v : V) (m : StdMap K V) :
    decide (StdMap.count (StdMap.assign k v m) k > 0) = true := by
  rw [decide_eq_true_eq, mapCount_pos, mapAssign_keys_mem]
  exact Or.inl rfl

theorem mapAssign_mem (kv : K × V) (k : K) (v : V) (m : StdMap K V)
    (h : kv ∈ StdMap.assign k v m) : kv = (k, v) ∨ kv ∈ m := by
  induction m with
  | nil => simpa [StdMap.assign] using h
  | cons e rest ih =>
    obtain ⟨j, w⟩ := e
    simp only [StdMap.assign] at h
    split_ifs at h with h1 h2
    · simpa using h
    · rcases List.mem_cons.mp h with h | h
      · exact Or.inr (by rw [h]; exact List.mem_cons_self _ _)
      · rcases ih h with h | h
        · exact Or.inl h
        · exact Or.inr (List.mem_cons_of_mem _ h)
    · have hjk : k = j := le_antisymm (not_lt.mp h2) (not_lt.mp h1)
      rcases List.mem_cons.mp h with h | h
      · exact Or.inl (by rw [h, hjk])
      · exact Or.inr (List.mem_cons_of_mem _ h)

end ContainerFacts

/-! ## Facts about reachable stores -/

theorem WF_init : CBasicKeyStore.init.WF := by
  simp [CBasicKeyStore.WF, CBasicKeyStore.init, StdMap.WF, StdSet.WF]

theorem WF_apply (P : Primitives) (s : CBasicKeyStore) (op : Op) (h : s.WF) :
    (Op.apply P s op).WF := by
  obtain ⟨h1, h2, h3, h4, h5, h6, h7, h8, h9⟩ := h
  cases op with
  | addKeyPubKey key pubkey =>
    exact ⟨mapAssign_WF _ _ _ h1, h2, h3, h4, h5, h6, h7, h8, h9⟩
  | addKey key =>
    exact ⟨mapAssign_WF _ _ _ h1, h2, h3, h4, h5, h6, h7, h8, h9⟩
  | addCScript redeemScript =>
    exact ⟨h1, mapAssign_WF _ _ _ h2, h3, h4, h5, h6, h7, h8, h9⟩
  | addWatchOnly dest =>
    exact ⟨h1, h2, setInsert_WF _ _ h3, h4, h5, h6, h7, h8, h9⟩
  | removeWatchOnly dest =>
    exact ⟨h1, h2, setErase_WF _ _ h3, h4, h5, h6, h7, h8, h9⟩
  | addSpendingKey sk =>
    exact ⟨h1, h2, h3, mapAssign_WF _ _ _ h4, mapAssign_WF _ _ _ h5, mapAssign_WF _ _ _ h6,
      h7, h8, h9⟩
  | addSproutViewingKey vk =>
    exact ⟨h1, h2, h3, h4, mapAssign_WF _ _ _ h5, mapAssign_WF _ _ _ h6, h7, h8, h9⟩
  | removeSproutViewingKey vk =>
    exact ⟨h1, h2, h3, h4, mapErase_WF _ _ h5, h6, h7, h8, h9⟩
  | addSaplingSpendingKey sk defaultAddr =>
    cases defaultAddr with
    | none =>
      exact ⟨h1, h2, h3, h4, h5, h6, mapAssign_WF _ _ _ h7, mapAssign_WF _ _ _ h8, h9⟩
    | some addr =>
      exact ⟨h1, h2, h3, h4, h5, h6, mapAssign_WF _ _ _ h7, mapAssign_WF _ _ _ h8,
        mapAssign_WF _ _ _ h9⟩
  | addSaplingFullViewingKey fvk defaultAddr =>
    cases defaultAddr with
    | none => exact ⟨h1, h2, h3, h4, h5, h6, h7, mapAssign_WF _ _ _ h8, h9⟩
    | some addr =>
      exact ⟨h1, h2, h3, h4, h5, h6, h7, mapAssign_WF _ _ _ h8, mapAssign_WF _ _ _ h9⟩

theorem WF_runOps (P : Primitives) (s : CBasicKeyStore) (ops : List Op) (h : s.WF) :
    (runOps P s ops).WF := by
  induction ops generalizing s with
  | nil => exact h
  | cons op rest ih => exact ih (Op.apply P s op) (WF_apply P s op h)

theorem SaplingInv_init (P : Primitives) : SaplingInv P CBasicKeyStore.init := by
  intro fvk sk h
  simp [CBasicKeyStore.init] at h

theorem SaplingInv_addFvk (P : Primitives) (s : CBasicKeyStore) (fvk : SaplingFullViewingKey)
    (defaultAddr : Option SaplingPaymentAddress) (h : SaplingInv P s) :
    SaplingInv P (s.AddSaplingFullViewingKey P fvk defaultAddr).store := by
  intro f sk hmem
  have hmem0 : (f, sk) ∈ s.mapSaplingSpendingKeys := by
    cases defaultAddr <;> exact hmem
  have hkeys : P.deriveIncomingViewingKey f ∈ StdMap.keys
      (StdMap.assign (P.deriveIncomingViewingKey fvk) fvk s.mapSaplingFullViewingKeys) :=
    (mapAssign_keys_mem _ _ _ _).mpr (Or.inr (h f sk hmem0).2)
  refine ⟨(h f sk hmem0).1, ?_⟩
  cases defaultAddr <;> exact hkeys

theorem SaplingInv_addSk (P : Primitives) (s : CBasicKeyStore) (sk : SaplingSpendingKey)
    (defaultAddr : Option SaplingPaymentAddress) (h : SaplingInv P s) :
    SaplingInv P (s.AddSaplingSpendingKey P sk defaultAddr).store := by
  intro f k hmem
  have hmem0 : (f, k) ∈ StdMap.assign (P.deriveFullViewingKey sk) sk s.mapSaplingSpendingKeys := by
    cases defaultAddr <;> exact hmem
  have hgoal : ∀ g, P.deriveIncomingViewingKey f ∈ StdMap.keys
      (StdMap.assign (P.deriveIncomingViewingKey (P.deriveFullViewingKey sk)) g
        s.mapSaplingFullViewingKeys) →
      P.deriveIncomingViewingKey f ∈ StdMap.keys
        (s.AddSaplingSpendingKey P sk defaultAddr).store.mapSaplingFullViewingKeys := by
    intro g hg
    have hk := (mapAssign_keys_mem _ _ g _).mp hg
    have hk2 : P.deriveIncomingViewingKey f ∈ StdMap.keys
        (StdMap.assign (P.deriveIncomingViewingKey (P.deriveFullViewingKey sk))
          (P.deriveFullViewingKey sk) s.mapSaplingFullViewingKeys) :=
      (mapAssign_keys_mem _ _ _ _).mpr hk
    cases defaultAddr <;> exact hk2
  rcases mapAssign_mem _ _ _ _ hmem0 with hnew | hold
  · obtain ⟨hf, hk⟩ := Prod.mk.inj hnew
    refine ⟨by rw [hf, hk], hgoal (P.deriveFullViewingKey sk) ?_⟩
    rw [hf]
    exact (mapAssign_keys_mem _ _ _ _).mpr (Or.inl rfl)
  · exact ⟨(h f k hold).1,
      hgoal (P.deriveFullViewingKey sk) ((mapAssign_keys_mem _ _ _ _).mpr (Or.inr (h f k hold).2))⟩

theorem SaplingInv_apply (P : Primitives) (s : CBasicKeyStore) (op : Op) (h : SaplingInv P s) :
    SaplingInv P (Op.apply P s op) := by
  cases op with
  | addSaplingSpendingKey sk defaultAddr => exact SaplingInv_addSk P s sk defaultAddr h
  | addSaplingFullViewingKey fvk defaultAddr => exact SaplingInv_addFvk P s fvk defaultAddr h
  | _ => exact h

theorem SaplingInv_runOps (P : Primitives) (s : CBasicKeyStore) (ops : List Op)
    (h : SaplingInv P s) : SaplingInv P (runOps P s ops) := by
  induction ops generalizing s with
  | nil => exact h
  | cons op rest ih => exact ih (Op.apply P s op) (SaplingInv_apply P s op h)

theorem GetPaymentAddresses_mem (s : CBasicKeyStore) (prior : StdSet SproutPaymentAddress)
    (a : SproutPaymentAddress) :
    a ∈ (s.GetPaymentAddresses prior).out ↔
      a ∈ StdMap.keys s.mapSproutSpendingKeys ∨ a ∈ StdMap.keys s.mapSproutViewingKeys := by
  unfold CBasicKeyStore.GetPaymentAddresses StdSet.clear
  simp only [insertKeys_mem, List.not_mem_nil, or_false]
  tauto

/-! ## Facts about the guards -/

theorem traced_bind_val {α β : Type} (x : Traced α) (f : α → Traced β) :
    (x >>= f).val = (f x.val).val := rfl

theorem traced_bind_trace {α β : Type} (x : Traced α) (f : α → Traced β) :
    (x >>= f).trace = x.trace ++ (f x.val).trace := rfl

theorem traced_pure_val {α : Type} (a : α) : (pure a : Traced α).val = a := rfl

theorem traced_pure_trace {α : Type} (a : α) : (pure a : Traced α).trace = [] := rfl

theorem runTrace_append (g : Guard) (held : Bool) (t1 t2 : List Event) :
    runTrace g held (t1 ++ t2) = (runTrace g held t1).bind (fun h => runTrace g h t2) := by
  induction t1 generalizing held with
  | nil => rfl
  | cons e es ih =>
    simp only [List.cons_append, runTrace]
    cases Event.step g held e with
    | none => rfl
    | some h => exact ih h

theorem runTrace_sound (g : Guard) (held held' : Bool) (tr : List Event)
    (h : runTrace g held tr = some held') :
    (∀ g', Event.acquire g' ∈ tr → g' = g) ∧ (∀ m, Event.read m ∈ tr → m.guard = g) := by
  induction tr generalizing held with
  | nil => simp
  | cons e es ih =>
    simp only [runTrace] at h
    cases hstep : Event.step g held e with
    | none => simp [hstep] at h
    | some h1 =>
      rw [hstep] at h
      obtain ⟨ha, hr⟩ := ih h1 h
      constructor
      · intro g' hg'
        rcases List.mem_cons.mp hg' with heq | hmem
        · subst heq
          simp only [Event.step] at hstep
          split_ifs at hstep with hc
          exact hc.1
        · exact ha g' hmem
      · intro m hm
        rcases List.mem_cons.mp hm with heq | hmem
        · subst heq
          simp only [Event.step] at hstep
          split_ifs at hstep with hc
          exact hc.1
        · exact hr m hmem

theorem guardedBy_of_run {α : Type} (g : Guard) (x : Traced α) (v : α) (hval : x.val = v)
    (hrun : runTrace g false x.trace = some false) : GuardedBy g x v :=
  ⟨hval, hrun, (runTrace_sound g false false x.trace hrun).1,
    (runTrace_sound g false false x.trace hrun).2⟩

theorem insertKeys_locked_val {K V : Type} [LinearOrder K] (member : Member) (m : StdMap K V)
    (acc : StdSet K) : (Locked.insertKeys member m acc).val = insertKeys m acc := by
  induction m generalizing acc with
  | nil => rfl
  | cons kv rest ih =>
    simp only [Locked.insertKeys, insertKeys, traced_bind_val]
    exact ih _

theorem insertKeys_locked_run {K V : Type} [LinearOrder K] (g : Guard) (member : Member)
    (hg : member.guard = g) (m : StdMap K V) (acc : StdSet K) :
    runTrace g true (Locked.insertKeys member m acc).trace = some true := by
  induction m generalizing acc with
  | nil => simp [Locked.insertKeys, traced_bind_trace, traced_pure_trace, access, runTrace,
      Event.step, hg]
  | cons kv rest ih =>
    simp only [Locked.insertKeys, traced_bind_trace, access, List.singleton_append, runTrace,
      Event.step, hg, and_self, if_true]
    exact ih _

theorem findInto_locked {K V : Type} [LinearOrder K] (g : Guard) (member : Member)
    (hg : member.guard = g) (s : CBasicKeyStore) (m : StdMap K V) (k : K) (out : V) :
    GuardedBy g (Locked.findInto g member s m k out) (findInto s m k out) := by
  apply guardedBy_of_run
  · unfold Locked.findInto findInto
    simp only [traced_bind_val, access]
    cases StdMap.find m k <;> rfl
  · unfold Locked.findInto
    simp only [traced_bind_trace, traced_bind_val, access, LOCK, UNLOCK]
    cases StdMap.find m k <;>
      simp [traced_bind_trace, traced_pure_trace, runTrace, Event.step, hg]

theorem countPositive_locked {K V : Type} [LinearOrder K] (g : Guard) (member : Member)
    (hg : member.guard = g) (m : StdMap K V) (k : K) :
    GuardedBy g (Locked.countPositive g member m k) (decide (StdMap.count m k > 0)) := by
  apply guardedBy_of_run
  · rfl
  · simp [Locked.countPositive, traced_bind_trace, traced_pure_trace, access, LOCK, UNLOCK,
      runTrace, Event.step, hg]

theorem enum_locked {α K V : Type} [LinearOrder K] (g : Guard) (member : Member)
    (hg : member.guard = g) (m : StdMap K V) (acc : StdSet K) (f : StdSet K → α) :
    GuardedBy g
      (do
        LOCK g
        access member ()
        let setAddress ← Locked.insertKeys member m acc
        UNLOCK g
        pure (f setAddress))
      (f (insertKeys m acc)) := by
  apply guardedBy_of_run
  · simp only [traced_bind_val, traced_pure_val, insertKeys_locked_val]
  · simp only [traced_bind_trace, traced_pure_trace, LOCK, UNLOCK, access, List.singleton_append,
      List.append_nil, runTrace, Event.step, hg, and_self, if_true, List.append_eq,
      List.nil_append]
    rw [runTrace_append, insertKeys_locked_run g member hg]
    simp [runTrace, Event.step]

/-! ## The claims -/

namespace CBasicKeyStore

variable (P : Primitives)

/-- C1: for every store and every prior content of the output set, `GetPaymentAddresses`
leaves the output set strictly increasing (so without duplicates), holding an address
exactly when it is a key of the Sprout spending-key map or of the Sprout viewing-key map,
and holding each such address once. -/
theorem GetPaymentAddresses_union (s : CBasicKeyStore) (prior : StdSet SproutPaymentAddress) :
    StdSet.WF (s.GetPaymentAddresses prior).out ∧
    (∀ a, a ∈ (s.GetPaymentAddresses prior).out ↔
      a ∈ StdMap.keys s.mapSproutSpendingKeys ∨ a ∈ StdMap.keys s.mapSproutViewingKeys) ∧
    (∀ a, List.count a (s.GetPaymentAddresses prior).out =
      if a ∈ StdMap.keys s.mapSproutSpendingKeys ∨ a ∈ StdMap.keys s.mapSproutViewingKeys
      then 1 else 0) := by
  have hwf : StdSet.WF (s.GetPaymentAddresses prior).out := by
    unfold GetPaymentAddresses StdSet.clear
    exact insertKeys_WF _ _ (insertKeys_WF _ _ (by simp [StdSet.WF]))
  have hmem : ∀ a, a ∈ (s.GetPaymentAddresses prior).out ↔
      a ∈ StdMap.keys s.mapSproutSpendingKeys ∨ a ∈ StdMap.keys s.mapSproutViewingKeys := by
    intro a
    unfold GetPaymentAddresses StdSet.clear
    simp only [insertKeys_mem, List.not_mem_nil, or_false]
    tauto
  exact ⟨hwf, hmem, fun a => enum_count a _ _ hwf (hmem a)⟩

/-- Witness of C1 on the sample store: address 2 is a key of both maps, 1 and 3 of one. -/
theorem GetPaymentAddresses_union_witness :
    (sampleStore.GetPaymentAddresses [⟨9⟩]).out = [⟨1⟩, ⟨2⟩, ⟨3⟩] ∧
    List.count (⟨2⟩ : SproutPaymentAddress) (sampleStore.GetPaymentAddresses [⟨9⟩]).out =
      (if (⟨2⟩ : SproutPaymentAddress) ∈ StdMap.keys sampleStore.mapSproutSpendingKeys ∨
        (⟨2⟩ : SproutPaymentAddress) ∈ StdMap.keys sampleStore.mapSproutViewingKeys
      then 1 else 0) :=
  ⟨by decide, (GetPaymentAddresses_union sampleStore [⟨9⟩]).2.2 ⟨2⟩⟩

/-- C2: for every store and every prior content of the output set, `GetKeys` leaves the
store as it was and the output set strictly increasing, holding an identity exactly when
it is a key of the transparent key map, each once; the prior content has no influence,
and for a well-formed key map the output is the list of its keys in iteration order. -/
theorem GetKeys_snapshot (s : CBasicKeyStore) (prior : StdSet CKeyID) :
    (s.GetKeys prior).store = s ∧
    StdSet.WF (s.GetKeys prior).out ∧
    (∀ a, a ∈ (s.GetKeys prior).out ↔ a ∈ StdMap.keys s.mapKeys) ∧
    (∀ a, List.count a (s.GetKeys prior).out = if a ∈ StdMap.keys s.mapKeys then 1 else 0) ∧
    (s.GetKeys prior).out = (s.GetKeys []).out ∧
    (StdMap.WF s.mapKeys → (s.GetKeys prior).out = StdMap.keys s.mapKeys) := by
  have hwf : StdSet.WF (s.GetKeys prior).out := by
    unfold GetKeys StdSet.clear
    exact insertKeys_WF _ _ (by simp [StdSet.WF])
  have hmem : ∀ a, a ∈ (s.GetKeys prior).out ↔ a ∈ StdMap.keys s.mapKeys := by
    intro a
    unfold GetKeys StdSet.clear
    simp only [insertKeys_mem, List.not_mem_nil, or_false]
  refine ⟨rfl, hwf, hmem, fun a => enum_count a _ _ hwf (hmem a), rfl, ?_⟩
  intro hm
  unfold GetKeys StdSet.clear
  simp only
  rw [insertKeys_sorted s.mapKeys [] hm (by simp)]
  simp

/-- Witness of C2 on the sample store, whose key map holds the identities 1 and 2. -/
theorem GetKeys_snapshot_witness :
    StdMap.WF sampleStore.mapKeys ∧
    (sampleStore.GetKeys [⟨9⟩]).out = [⟨1⟩, ⟨2⟩] ∧
    (sampleStore.GetKeys [⟨9⟩]).out = StdMap.keys sampleStore.mapKeys :=
  ⟨by simp [StdMap.WF, sampleStore]; decide, by decide,
    (GetKeys_snapshot sampleStore [⟨9⟩]).2.2.2.2.2 (by simp [StdMap.WF, sampleStore]; decide)⟩

/-- C3: each of the inline lookups `GetKey`, `GetSpendingKey`, `GetNoteDecryptor` and
`GetSaplingSpendingKey` leaves the store as it was, returns true exactly when the queried
key is a key of its map, and either returns true with the output set to the value stored
under the queried key or returns false with the output parameter left as it was. -/
theorem Get_lookup_outcome (s : CBasicKeyStore) (address : CKeyID) (keyOut : CKey)
    (zaddr : SproutPaymentAddress) (skOut : SproutSpendingKey) (decOut : ZCNoteDecryption)
    (fvk : SaplingFullViewingKey) (saplingSkOut : SaplingSpendingKey) :
    LookupOutcome s s.mapKeys address keyOut (s.GetKey address keyOut) ∧
    LookupOutcome s s.mapSproutSpendingKeys zaddr skOut (s.GetSpendingKey zaddr skOut) ∧
    LookupOutcome s s.mapNoteDecryptors zaddr decOut (s.GetNoteDecryptor zaddr decOut) ∧
    LookupOutcome s s.mapSaplingSpendingKeys fvk saplingSkOut
      (s.GetSaplingSpendingKey fvk saplingSkOut) :=
  ⟨findInto_outcome _ _ _ _, findInto_outcome _ _ _ _, findInto_outcome _ _ _ _,
    findInto_outcome _ _ _ _⟩

/-- Witness of C3 on the sample store: identity 1 is found with key 11, the Sprout address
3 has a note decryptor but no spending key, and no spending key is stored under the full
viewing key 5. -/
theorem Get_lookup_outcome_witness :
    sampleStore.GetKey ⟨1⟩ ⟨0⟩ = ⟨true, ⟨11⟩, sampleStore⟩ ∧
    sampleStore.GetSpendingKey ⟨3⟩ ⟨0⟩ = ⟨false, ⟨0⟩, sampleStore⟩ ∧
    sampleStore.GetNoteDecryptor ⟨3⟩ ⟨0⟩ = ⟨true, ⟨43⟩, sampleStore⟩ ∧
    sampleStore.GetSaplingSpendingKey ⟨5⟩ ⟨0⟩ = ⟨false, ⟨0⟩, sampleStore⟩ ∧
    LookupOutcome sampleStore sampleStore.mapKeys ⟨1⟩ ⟨0⟩ (sampleStore.GetKey ⟨1⟩ ⟨0⟩) :=
  ⟨rfl, rfl, rfl, rfl, (Get_lookup_outcome sampleStore ⟨1⟩ ⟨0⟩ ⟨3⟩ ⟨0⟩ ⟨0⟩ ⟨5⟩ ⟨0⟩).1⟩

/-- C4: for every store, secret key and public key, `AddKeyPubKey` returns true, and on
the store it leaves `GetKey` at the identity of the public key returns true with the
secret key as output and `HaveKey` at that identity is true. -/
theorem AddKeyPubKey_roundtrip (s : CBasicKeyStore) (sk : CKey) (pk : CPubKey) (keyOut : CKey) :
    (s.AddKeyPubKey P sk pk).ret = true ∧
    (s.AddKeyPubKey P sk pk).store.GetKey (P.identity pk) keyOut =
      ⟨true, sk, (s.AddKeyPubKey P sk pk).store⟩ ∧
    (s.AddKeyPubKey P sk pk).store.HaveKey (P.identity pk) = true :=
  ⟨rfl, findInto_assign_self _ _ _ _ _, count_assign_self _ _ _⟩

/-- Witness of C4 on the sample store: key 77 added under the public key 2, an identity the
store already holds, and read back. -/
theorem AddKeyPubKey_roundtrip_witness :
    ((sampleStore.AddKeyPubKey samplePrimitives ⟨77⟩ ⟨2⟩).store.GetKey ⟨2⟩ ⟨0⟩).out = ⟨77⟩ ∧
    (sampleStore.AddKeyPubKey samplePrimitives ⟨77⟩ ⟨2⟩).store.HaveKey
      (samplePrimitives.identity ⟨2⟩) = true :=
  ⟨by decide, (AddKeyPubKey_roundtrip samplePrimitives sampleStore ⟨77⟩ ⟨2⟩ ⟨0⟩).2.2⟩

/-- C5: for every store and Sapling spending key `sk`, on the store left by
`AddSaplingSpendingKey(sk, none)` the lookup `GetSaplingFullViewingKey` at the incoming
viewing key derived from the full viewing key of `sk` returns true with that full viewing
key, and `GetSaplingSpendingKey` at the full viewing key of `sk` returns true with `sk`. -/
theorem AddSaplingSpendingKey_derivation (s : CBasicKeyStore) (sk : SaplingSpendingKey)
    (fvkOut : SaplingFullViewingKey) (skOut : SaplingSpendingKey) :
    (s.AddSaplingSpendingKey P sk none).ret = true ∧
    (s.AddSaplingSpendingKey P sk none).store.GetSaplingFullViewingKey
        (P.deriveIncomingViewingKey (P.deriveFullViewingKey sk)) fvkOut =
      ⟨true, P.deriveFullViewingKey sk, (s.AddSaplingSpendingKey P sk none).store⟩ ∧
    (s.AddSaplingSpendingKey P sk none).store.GetSaplingSpendingKey
        (P.deriveFullViewingKey sk) skOut =
      ⟨true, sk, (s.AddSaplingSpendingKey P sk none).store⟩ :=
  ⟨rfl, findInto_assign_self _ _ _ _ _, findInto_assign_self _ _ _ _ _⟩

/-- Witness of C5: spending key 1 added to the empty store; its full viewing key is 101
and the incoming viewing key 1101 under the sample primitives. -/
theorem AddSaplingSpendingKey_derivation_witness :
    ((init.AddSaplingSpendingKey samplePrimitives ⟨1⟩ none).store.GetSaplingFullViewingKey
      ⟨1101⟩ ⟨0⟩).out = ⟨101⟩ ∧
    ((init.AddSaplingSpendingKey samplePrimitives ⟨1⟩ none).store.GetSaplingSpendingKey
      ⟨101⟩ ⟨0⟩).out = ⟨1⟩ ∧
    (init.AddSaplingSpendingKey samplePrimitives ⟨1⟩ none).ret = true :=
  ⟨by decide, by decide, (AddSaplingSpendingKey_derivation samplePrimitives init ⟨1⟩ ⟨0⟩ ⟨0⟩).1⟩

/-- C6: in every store reached from the empty store by a sequence of `Add...` and
`Remove...` calls, whenever `HaveSaplingSpendingKey(fvk)` is true, `GetSaplingSpendingKey`
returns true with a spending key whose derived full viewing key is `fvk`, and
`HaveSaplingFullViewingKey` is true at the incoming viewing key derived from `fvk`. -/
theorem reachable_spending_key_has_fvk (ops : List Op) (fvk : SaplingFullViewingKey)
    (skOut : SaplingSpendingKey)
    (h : (runOps P init ops).HaveSaplingSpendingKey fvk = true) :
    ((runOps P init ops).GetSaplingSpendingKey fvk skOut).ret = true ∧
    P.deriveFullViewingKey ((runOps P init ops).GetSaplingSpendingKey fvk skOut).out = fvk ∧
    (runOps P init ops).HaveSaplingFullViewingKey (P.deriveIncomingViewingKey fvk) = true := by
  have hinv := SaplingInv_runOps P init ops (SaplingInv_init P)
  have hkey : fvk ∈ StdMap.keys (runOps P init ops).mapSaplingSpendingKeys :=
    (mapCount_pos _ _).mp (of_decide_eq_true h)
  obtain ⟨-, hret, hcase⟩ :=
    findInto_outcome (runOps P init ops) (runOps P init ops).mapSaplingSpendingKeys fvk skOut
  have hret2 : ((runOps P init ops).GetSaplingSpendingKey fvk skOut).ret = true := hret.mpr hkey
  rcases hcase with ⟨-, hmem, -⟩ | ⟨hfalse, -⟩
  · obtain ⟨hd, hk⟩ := hinv fvk _ hmem
    exact ⟨hret2, hd, decide_eq_true ((mapCount_pos _ _).mpr hk)⟩
  · have hret3 : (findInto (runOps P init ops) (runOps P init ops).mapSaplingSpendingKeys
        fvk skOut).ret = true := hret2
    rw [hfalse] at hret3
    exact absurd hret3 (by decide)

/-- Witness of C6 on the store reached by `sampleOps`, which holds the spending key 1 under
its full viewing key 101. -/
theorem reachable_spending_key_has_fvk_witness :
    (runOps samplePrimitives init sampleOps).HaveSaplingSpendingKey ⟨101⟩ = true ∧
    (runOps samplePrimitives init sampleOps).GetSaplingSpendingKey ⟨101⟩ ⟨0⟩ =
      ⟨true, ⟨1⟩, runOps samplePrimitives init sampleOps⟩ ∧
    (runOps samplePrimitives init sampleOps).HaveSaplingFullViewingKey
      (samplePrimitives.deriveIncomingViewingKey ⟨101⟩) = true :=
  ⟨by decide, rfl,
    (reachable_spending_key_has_fvk samplePrimitives sampleOps ⟨101⟩ ⟨0⟩ (by decide)).2.2⟩

/-- C7: starting from the empty store, after `AddSaplingSpendingKey(sk1, none)` the
enumeration `GetSaplingPaymentAddresses` leaves the empty set; after a following
`AddSaplingSpendingKey(sk2, addr2)` it leaves exactly the set holding `addr2`, and
`GetSaplingIncomingViewingKey(addr2)` returns true with the incoming viewing key derived
from the full viewing key of `sk2`. -/
theorem sapling_scenario (sk1 sk2 : SaplingSpendingKey) (addr2 : SaplingPaymentAddress)
    (prior1 prior2 : StdSet SaplingPaymentAddress) (ivkOut : SaplingIncomingViewingKey) :
    ((scenarioStore1 P sk1).GetSaplingPaymentAddresses prior1).out = [] ∧
    ((scenarioStore2 P sk1 sk2 addr2).GetSaplingPaymentAddresses prior2).out = [addr2] ∧
    (scenarioStore2 P sk1 sk2 addr2).GetSaplingIncomingViewingKey addr2 ivkOut =
      ⟨true, P.deriveIncomingViewingKey (P.deriveFullViewingKey sk2),
        scenarioStore2 P sk1 sk2 addr2⟩ :=
  ⟨rfl, rfl, findInto_assign_self _ _ _ _ _⟩

/-- Witness of C7 with the spending keys 1 and 2 and the address 8. -/
theorem sapling_scenario_witness :
    ((scenarioStore1 samplePrimitives ⟨1⟩).GetSaplingPaymentAddresses [⟨3⟩]).out = [] ∧
    ((scenarioStore2 samplePrimitives ⟨1⟩ ⟨2⟩ ⟨8⟩).GetSaplingPaymentAddresses [⟨3⟩]).out =
      [⟨8⟩] ∧
    ((scenarioStore2 samplePrimitives ⟨1⟩ ⟨2⟩ ⟨8⟩).GetSaplingIncomingViewingKey ⟨8⟩ ⟨0⟩).out =
      ⟨1102⟩ :=
  ⟨by decide, (sapling_scenario samplePrimitives ⟨1⟩ ⟨2⟩ ⟨8⟩ [⟨3⟩] [⟨3⟩] ⟨0⟩).2.1, by decide⟩

/-- C8: `HaveSpendingKey` and `GetSpendingKey` are determined by the Sprout spending-key
map alone: two stores with the same spending-key map give the same results at every
address.  In particular `RemoveSproutViewingKey` changes neither, and after
`AddSpendingKey(sk)` followed by the removal of any viewing key `HaveSpendingKey` is still
true at the address of `sk`. -/
theorem spending_key_lookup_frame (s1 s2 : CBasicKeyStore)
    (h : s1.mapSproutSpendingKeys = s2.mapSproutSpendingKeys) (vk : SproutViewingKey)
    (sk : SproutSpendingKey) (A : SproutPaymentAddress) (skOut : SproutSpendingKey) :
    s1.HaveSpendingKey A = s2.HaveSpendingKey A ∧
    (s1.GetSpendingKey A skOut).ret = (s2.GetSpendingKey A skOut).ret ∧
    (s1.GetSpendingKey A skOut).out = (s2.GetSpendingKey A skOut).out ∧
    (s1.RemoveSproutViewingKey P vk).store.HaveSpendingKey A = s1.HaveSpendingKey A ∧
    ((s1.RemoveSproutViewingKey P vk).store.GetSpendingKey A skOut).ret =
      (s1.GetSpendingKey A skOut).ret ∧
    ((s1.RemoveSproutViewingKey P vk).store.GetSpendingKey A skOut).out =
      (s1.GetSpendingKey A skOut).out ∧
    ((s1.AddSpendingKey P sk).store.RemoveSproutViewingKey P vk).store.HaveSpendingKey
      (P.deriveSproutAddressAndViewingKey sk).1 = true := by
  refine ⟨?_, ?_, ?_, rfl, (findInto_frame _ _ _ _ _).1, (findInto_frame _ _ _ _ _).2,
    count_assign_self _ _ _⟩
  · unfold HaveSpendingKey
    rw [h]
  · unfold GetSpendingKey
    rw [h]
    exact (findInto_frame _ _ _ _ _).1
  · unfold GetSpendingKey
    rw [h]
    exact (findInto_frame _ _ _ _ _).2

/-- Witness of C8: the sample store and the store left by removing the viewing key of
address 2, an address that has a spending key as well. -/
theorem spending_key_lookup_frame_witness :
    (sampleStore.RemoveSproutViewingKey samplePrimitives ⟨2⟩).store.mapSproutViewingKeys ≠
      sampleStore.mapSproutViewingKeys ∧
    (sampleStore.RemoveSproutViewingKey samplePrimitives ⟨2⟩).store.HaveSpendingKey ⟨2⟩ = true ∧
    sampleStore.HaveSpendingKey ⟨2⟩ =
      (sampleStore.RemoveSproutViewingKey samplePrimitives ⟨2⟩).store.HaveSpendingKey ⟨2⟩ :=
  ⟨by decide, by decide,
    (spending_key_lookup_frame samplePrimitives sampleStore
      (sampleStore.RemoveSproutViewingKey samplePrimitives ⟨2⟩).store rfl ⟨2⟩ ⟨1⟩ ⟨2⟩ ⟨0⟩).1⟩

/-- C9: for every store, when a secret key `k1` and then a different secret key `k2` are
added under public keys of the same identity, `GetKey` at that identity returns true with
`k2` (so not `k1`), and the identity occurs exactly once in the set left by `GetKeys`. -/
theorem AddKeyPubKey_overwrite (s : CBasicKeyStore) (k1 k2 : CKey) (pk1 pk2 : CPubKey)
    (keyOut : CKey) (prior : StdSet CKeyID) (hid : P.identity pk1 = P.identity pk2)
    (hne : k1 ≠ k2) :
    (addTwoKeys P s k1 pk1 k2 pk2).GetKey (P.identity pk1) keyOut =
      ⟨true, k2, addTwoKeys P s k1 pk1 k2 pk2⟩ ∧
    ((addTwoKeys P s k1 pk1 k2 pk2).GetKey (P.identity pk1) keyOut).out ≠ k1 ∧
    List.count (P.identity pk1) ((addTwoKeys P s k1 pk1 k2 pk2).GetKeys prior).out = 1 := by
  have hget : (addTwoKeys P s k1 pk1 k2 pk2).GetKey (P.identity pk1) keyOut =
      ⟨true, k2, addTwoKeys P s k1 pk1 k2 pk2⟩ := by
    rw [hid]
    exact findInto_assign_self _ _ _ _ _
  refine ⟨hget, ?_, ?_⟩
  · rw [hget]
    exact Ne.symm hne
  · have hwf : StdSet.WF ((addTwoKeys P s k1 pk1 k2 pk2).GetKeys prior).out := by
      unfold GetKeys StdSet.clear
      exact insertKeys_WF _ _ (by simp [StdSet.WF])
    have hmem : P.identity pk1 ∈ ((addTwoKeys P s k1 pk1 k2 pk2).GetKeys prior).out := by
      unfold GetKeys StdSet.clear
      simp only [insertKeys_mem, List.not_mem_nil, or_false]
      rw [hid]
      exact (mapAssign_keys_mem _ _ _ _).mpr (Or.inl rfl)
    rw [setWF_count _ _ hwf, if_pos hmem]

/-- Witness of C9 on the sample store: the keys 70 and 71 added under the public keys 3
and 3, which have the identity 3. -/
theorem AddKeyPubKey_overwrite_witness :
    (addTwoKeys samplePrimitives sampleStore ⟨70⟩ ⟨3⟩ ⟨71⟩ ⟨3⟩).mapKeys =
      [(⟨1⟩, ⟨11⟩), (⟨2⟩, ⟨12⟩), (⟨3⟩, ⟨71⟩)] ∧
    List.count (samplePrimitives.identity ⟨3⟩)
      ((addTwoKeys samplePrimitives sampleStore ⟨70⟩ ⟨3⟩ ⟨71⟩ ⟨3⟩).GetKeys []).out = 1 :=
  ⟨by decide,
    (AddKeyPubKey_overwrite samplePrimitives sampleStore ⟨70⟩ ⟨71⟩ ⟨3⟩ ⟨3⟩ ⟨0⟩ [] rfl
      (by decide)).2.2⟩

/-- C10: for every store with a well-formed watch-only set and every script `dest`,
`AddWatchOnly(dest); AddWatchOnly(dest)` leaves the same store as a single
`AddWatchOnly(dest)`, with exactly one instance of `dest` in the set; a following
`RemoveWatchOnly(dest)` makes `HaveWatchOnly(dest)` false, and makes `HaveWatchOnly()`
false exactly when `dest` was the only entry. -/
theorem AddWatchOnly_idempotent (s : CBasicKeyStore) (dest : CScript)
    (hwf : StdSet.WF s.setWatchOnly) :
    watchTwice s dest = (s.AddWatchOnly dest).store ∧
    StdSet.count (watchTwice s dest).setWatchOnly dest = 1 ∧
    ((watchTwice s dest).RemoveWatchOnly dest).store.HaveWatchOnly dest = false ∧
    (((watchTwice s dest).RemoveWatchOnly dest).store.HaveWatchOnlyAny = false ↔
      ∀ x ∈ (watchTwice s dest).setWatchOnly, x = dest) := by
  have hsame : watchTwice s dest = (s.AddWatchOnly dest).store := by
    unfold watchTwice AddWatchOnly
    simp only [setInsert_idem]
  refine ⟨hsame, ?_, ?_, ?_⟩
  · rw [hsame]
    unfold StdSet.count AddWatchOnly
    rw [setWF_count _ _ (setInsert_WF dest _ hwf), if_pos ((setInsert_mem _ _ _).mpr (Or.inl rfl))]
  · unfold HaveWatchOnly RemoveWatchOnly StdSet.count
    rw [decide_eq_false_iff_not, gt_iff_lt, List.count_pos_iff, setErase_mem]
    exact fun h => h.1 rfl
  · unfold HaveWatchOnlyAny RemoveWatchOnly StdSet.empty StdSet.erase
    simp only [Bool.not_eq_false', List.isEmpty_iff, List.filter_eq_nil_iff, decide_eq_true_eq,
      not_not]

/-- Witness of C10: the script 7 is already watched in the sample store, next to 8; in the
empty store it becomes the only entry. -/
theorem AddWatchOnly_idempotent_witness :
    StdSet.WF sampleStore.setWatchOnly ∧
    (watchTwice sampleStore ⟨7⟩).setWatchOnly = [⟨7⟩, ⟨8⟩] ∧
    ((watchTwice sampleStore ⟨7⟩).RemoveWatchOnly ⟨7⟩).store.HaveWatchOnlyAny = true ∧
    ((watchTwice init ⟨7⟩).RemoveWatchOnly ⟨7⟩).store.HaveWatchOnlyAny = false ∧
    StdSet.count (watchTwice sampleStore ⟨7⟩).setWatchOnly ⟨7⟩ = 1 :=
  ⟨by simp [StdSet.WF, sampleStore]; decide, by decide, by decide, by decide,
    (AddWatchOnly_idempotent sampleStore ⟨7⟩ (by simp [StdSet.WF, sampleStore]; decide)).2.1⟩

/-- C12: for every store and every prior content of the output set,
`GetSaplingPaymentAddresses` leaves the output set strictly increasing, holding an address
exactly when it is a key of the address-to-incoming-viewing-key map, each once; two stores
with the same such map give the same output whatever their other maps hold, and a
well-formed store that holds a Sapling spending key and a full viewing key can give the
empty set. -/
theorem GetSaplingPaymentAddresses_keys (s1 s2 : CBasicKeyStore)
    (prior1 prior2 : StdSet SaplingPaymentAddress)
    (h : s1.mapSaplingIncomingViewingKeys = s2.mapSaplingIncomingViewingKeys) :
    StdSet.WF (s1.GetSaplingPaymentAddresses prior1).out ∧
    (∀ a, a ∈ (s1.GetSaplingPaymentAddresses prior1).out ↔
      a ∈ StdMap.keys s1.mapSaplingIncomingViewingKeys) ∧
    (∀ a, List.count a (s1.GetSaplingPaymentAddresses prior1).out =
      if a ∈ StdMap.keys s1.mapSaplingIncomingViewingKeys then 1 else 0) ∧
    (s1.GetSaplingPaymentAddresses prior1).out = (s2.GetSaplingPaymentAddresses prior2).out ∧
    (∃ (s : CBasicKeyStore) (fvk : SaplingFullViewingKey), s.WF ∧
      s.HaveSaplingSpendingKey fvk = true ∧ s.mapSaplingFullViewingKeys ≠ [] ∧
      (s.GetSaplingPaymentAddresses prior1).out = []) := by
  have hwf : StdSet.WF (s1.GetSaplingPaymentAddresses prior1).out := by
    unfold GetSaplingPaymentAddresses StdSet.clear
    exact insertKeys_WF _ _ (by simp [StdSet.WF])
  have hmem : ∀ a, a ∈ (s1.GetSaplingPaymentAddresses prior1).out ↔
      a ∈ StdMap.keys s1.mapSaplingIncomingViewingKeys := by
    intro a
    unfold GetSaplingPaymentAddresses StdSet.clear
    simp only [insertKeys_mem, List.not_mem_nil, or_false]
  refine ⟨hwf, hmem, fun a => enum_count a _ _ hwf (hmem a), ?_, sampleStore, ⟨101⟩, ?_, ?_, ?_,
    rfl⟩
  · unfold GetSaplingPaymentAddresses
    rw [h]
    rfl
  · simp only [CBasicKeyStore.WF, StdMap.WF, StdSet.WF, sampleStore]
    decide
  · decide
  · simp [sampleStore]

/-- Witness of C12: the store reached by `sampleOps` and the same store without its Sapling
spending keys and full viewing keys both give the addresses 8 and 9. -/
theorem GetSaplingPaymentAddresses_keys_witness :
    (runOps samplePrimitives init sampleOps).mapSaplingSpendingKeys ≠
      sampleViewOnly.mapSaplingSpendingKeys ∧
    ((runOps samplePrimitives init sampleOps).GetSaplingPaymentAddresses [⟨3⟩]).out =
      [⟨8⟩, ⟨9⟩] ∧
    ((runOps samplePrimitives init sampleOps).GetSaplingPaymentAddresses [⟨3⟩]).out =
      (sampleViewOnly.GetSaplingPaymentAddresses []).out :=
  ⟨by decide, by decide,
    (GetSaplingPaymentAddresses_keys (runOps samplePrimitives init sampleOps) sampleViewOnly
      [⟨3⟩] [] rfl).2.2.2.1⟩

/-- C13: for every store and transparent identity, `HaveKey` is true exactly when `GetKey`
returns true, and `GetKey` returns true exactly when the identity is a member of the set
left by `GetKeys`. -/
theorem transparent_views_agree (s : CBasicKeyStore) (id : CKeyID) (keyOut : CKey)
    (prior : StdSet CKeyID) :
    (s.HaveKey id = true ↔ (s.GetKey id keyOut).ret = true) ∧
    ((s.GetKey id keyOut).ret = true ↔ id ∈ (s.GetKeys prior).out) ∧
    (s.HaveKey id = true ↔ id ∈ (s.GetKeys prior).out) := by
  have hhave : s.HaveKey id = true ↔ id ∈ StdMap.keys s.mapKeys := by
    unfold HaveKey
    rw [decide_eq_true_eq, mapCount_pos]
  have hget : (s.GetKey id keyOut).ret = true ↔ id ∈ StdMap.keys s.mapKeys :=
    (findInto_outcome s s.mapKeys id keyOut).2.1
  have henum : id ∈ (s.GetKeys prior).out ↔ id ∈ StdMap.keys s.mapKeys := by
    unfold GetKeys StdSet.clear
    simp only [insertKeys_mem, List.not_mem_nil, or_false]
  exact ⟨hhave.trans hget.symm, hget.trans henum.symm, hhave.trans henum.symm⟩

/-- Witness of C13 on the sample store: the identity 2 is seen by all three views and the
identity 5 by none. -/
theorem transparent_views_agree_witness :
    sampleStore.HaveKey ⟨2⟩ = true ∧ (sampleStore.GetKey ⟨5⟩ ⟨0⟩).ret = false ∧
    (⟨5⟩ : CKeyID) ∉ (sampleStore.GetKeys []).out ∧
    (sampleStore.HaveKey ⟨2⟩ = true ↔ (⟨2⟩ : CKeyID) ∈ (sampleStore.GetKeys []).out) :=
  ⟨by decide, by decide, by decide, (transparent_views_agree sampleStore ⟨2⟩ ⟨0⟩ []).2.2⟩

/-- C14: for every store and Sprout address, `HaveSpendingKey` is true exactly when
`GetSpendingKey` returns true, and then the address is a member of the set left by
`GetPaymentAddresses`; the converse fails: a well-formed store has an address that is
enumerated, being a key of the viewing-key map, while `HaveSpendingKey` is false. -/
theorem spending_key_views (s : CBasicKeyStore) (A : SproutPaymentAddress)
    (skOut : SproutSpendingKey) (prior : StdSet SproutPaymentAddress) :
    (s.HaveSpendingKey A = true ↔ (s.GetSpendingKey A skOut).ret = true) ∧
    (s.HaveSpendingKey A = true → A ∈ (s.GetPaymentAddresses prior).out) ∧
    (∃ (s0 : CBasicKeyStore) (A0 : SproutPaymentAddress), s0.WF ∧
      A0 ∈ StdMap.keys s0.mapSproutViewingKeys ∧
      A0 ∈ (s0.GetPaymentAddresses prior).out ∧ s0.HaveSpendingKey A0 = false ∧
      (s0.GetSpendingKey A0 skOut).ret = false) := by
  have hhave : s.HaveSpendingKey A = true ↔ A ∈ StdMap.keys s.mapSproutSpendingKeys := by
    unfold HaveSpendingKey
    rw [decide_eq_true_eq, mapCount_pos]
  have hget : (s.GetSpendingKey A skOut).ret = true ↔ A ∈ StdMap.keys s.mapSproutSpendingKeys :=
    (findInto_outcome s s.mapSproutSpendingKeys A skOut).2.1
  refine ⟨hhave.trans hget.symm, ?_, sampleStore, ⟨3⟩, ?_, ?_, ?_, ?_, ?_⟩
  · intro hA
    exact ((GetPaymentAddresses_mem s prior A).mpr (Or.inl (hhave.mp hA)))
  · simp only [CBasicKeyStore.WF, StdMap.WF, StdSet.WF, sampleStore]
    decide
  · decide
  · exact (GetPaymentAddresses_mem sampleStore prior ⟨3⟩).mpr (Or.inr (by decide))
  · decide
  · rfl

/-- Witness of C14 on the sample store: the address 1 has a spending key and is
enumerated; the address 3 is enumerated without one. -/
theorem spending_key_views_witness :
    sampleStore.HaveSpendingKey ⟨1⟩ = true ∧
    sampleStore.HaveSpendingKey ⟨3⟩ = false ∧
    (sampleStore.GetPaymentAddresses []).out = [⟨1⟩, ⟨2⟩, ⟨3⟩] ∧
    (⟨1⟩ : SproutPaymentAddress) ∈ (sampleStore.GetPaymentAddresses []).out :=
  ⟨by decide, by decide, by decide,
    (spending_key_views sampleStore ⟨1⟩ ⟨0⟩ []).2.1 (by decide)⟩

/-- C11: each of the ten member functions that keystore.h defines inline computes the
value of its embedding above while keeping the discipline of one guard: `HaveKey`,
`GetKeys` and `GetKey` acquire only `cs_KeyStore`; `HaveSpendingKey`, `GetSpendingKey`,
`GetNoteDecryptor`, `GetPaymentAddresses`, `HaveSaplingSpendingKey`,
`GetSaplingSpendingKey` and `GetSaplingPaymentAddresses` acquire only
`cs_SpendingKeyStore`; each reads data members only while it holds its guard, only members
that guard protects, and releases the guard before it returns.  So none acquires both. -/
theorem inline_operations_single_guard (s : CBasicKeyStore) (id : CKeyID) (keyOut : CKey)
    (priorK : StdSet CKeyID) (zaddr : SproutPaymentAddress) (skOut : SproutSpendingKey)
    (decOut : ZCNoteDecryption) (priorZ : StdSet SproutPaymentAddress)
    (fvk : SaplingFullViewingKey) (saplingSkOut : SaplingSpendingKey)
    (priorS : StdSet SaplingPaymentAddress) :
    GuardedBy .cs_KeyStore (Locked.HaveKey s id) (s.HaveKey id) ∧
    GuardedBy .cs_KeyStore (Locked.GetKeys s priorK) (s.GetKeys priorK) ∧
    GuardedBy .cs_KeyStore (Locked.GetKey s id keyOut) (s.GetKey id keyOut) ∧
    GuardedBy .cs_SpendingKeyStore (Locked.HaveSpendingKey s zaddr) (s.HaveSpendingKey zaddr) ∧
    GuardedBy .cs_SpendingKeyStore (Locked.GetSpendingKey s zaddr skOut)
      (s.GetSpendingKey zaddr skOut) ∧
    GuardedBy .cs_SpendingKeyStore (Locked.GetNoteDecryptor s zaddr decOut)
      (s.GetNoteDecryptor zaddr decOut) ∧
    GuardedBy .cs_SpendingKeyStore (Locked.GetPaymentAddresses s priorZ)
      (s.GetPaymentAddresses priorZ) ∧
    GuardedBy .cs_SpendingKeyStore (Locked.HaveSaplingSpendingKey s fvk)
      (s.HaveSaplingSpendingKey fvk) ∧
    GuardedBy .cs_SpendingKeyStore (Locked.GetSaplingSpendingKey s fvk saplingSkOut)
      (s.GetSaplingSpendingKey fvk saplingSkOut) ∧
    GuardedBy .cs_SpendingKeyStore (Locked.GetSaplingPaymentAddresses s priorS)
      (s.GetSaplingPaymentAddresses priorS) := by
  refine ⟨countPositive_locked _ _ rfl _ _, ?_, findInto_locked _ _ rfl _ _ _ _,
    countPositive_locked _ _ rfl _ _, findInto_locked _ _ rfl _ _ _ _,
    findInto_locked _ _ rfl _ _ _ _, ?_, countPositive_locked _ _ rfl _ _,
    findInto_locked _ _ rfl _ _ _ _, ?_⟩
  · exact enum_locked .cs_KeyStore .mapKeys rfl s.mapKeys []
      (fun out => (⟨out, s⟩ : EnumCall CKeyID))
  · apply guardedBy_of_run
    · unfold Locked.GetPaymentAddresses GetPaymentAddresses
      simp only [traced_bind_val, traced_pure_val, insertKeys_locked_val]
    · unfold Locked.GetPaymentAddresses
      simp only [traced_bind_trace, traced_bind_val, traced_pure_trace, LOCK, UNLOCK, access,
        List.singleton_append, List.append_nil, runTrace, Event.step, Member.guard, and_self,
        if_true, List.append_eq, List.nil_append]
      rw [runTrace_append,
        insertKeys_locked_run .cs_SpendingKeyStore .mapSproutSpendingKeys rfl]
      simp only [Option.bind, List.cons_append, runTrace, Event.step, Member.guard, and_self,
        if_true]
      rw [runTrace_append,
        insertKeys_locked_run .cs_SpendingKeyStore .mapSproutViewingKeys rfl]
      simp [runTrace, Event.step]
  · exact enum_locked .cs_SpendingKeyStore .mapSaplingIncomingViewingKeys rfl
      s.mapSaplingIncomingViewingKeys [] (fun out => (⟨out, s⟩ : EnumCall SaplingPaymentAddress))

/-- Witness of C11 on the sample store: the events of `GetKey` at an absent identity and
of `GetKeys` over the two stored identities. -/
theorem inline_operations_single_guard_witness :
    (Locked.GetKey sampleStore ⟨5⟩ ⟨0⟩).trace =
      [.acquire .cs_KeyStore, .read .mapKeys, .read .mapKeys, .release .cs_KeyStore] ∧
    (Locked.GetKeys sampleStore [⟨9⟩]).trace =
      [.acquire .cs_KeyStore, .read .mapKeys, .read .mapKeys, .read .mapKeys, .read .mapKeys,
        .read .mapKeys, .read .mapKeys, .read .mapKeys, .read .mapKeys,
        .release .cs_KeyStore] ∧
    GuardedBy .cs_SpendingKeyStore (Locked.GetPaymentAddresses sampleStore [⟨9⟩])
      (sampleStore.GetPaymentAddresses [⟨9⟩]) :=
  ⟨by decide, by decide,
    (inline_operations_single_guard sampleStore ⟨5⟩ ⟨0⟩ [⟨9⟩] ⟨3⟩ ⟨0⟩ ⟨0⟩ [⟨9⟩] ⟨5⟩ ⟨0⟩
      [⟨9⟩]).2.2.2.2.2.2.1⟩

end CBasicKeyStore

end KeyStore
